import Mathlib

/-!
# Gastronomy ERP lite: a shallow embedding of `Gastronomy.cpp`

The C++ classes `Ingredient`, `Food`, `Meal`, `OrderRecord`, `History`, `Person`,
`Admin`, `User`, `Cart`, `Restaurant`, `AuthSystem` and the menu loop of `main`
are translated to Lean definitions.

Conventions of the embedding.

* A member function that can throw is a function from the object to a pair
  `(outcome, object after the call)`; `outcome` is `Except String Unit`, the
  string being the `what()` of the `runtime_error`.  A throwing call returns the
  object exactly as the C++ code left it when the exception was raised.
* `double` is the type `Double` below: IEEE 754 binary64 with round to nearest,
  ties to even (NaN, both infinities and both zeros included).
* A raw pointer (`Food*`, `Meal*`, `Ingredient*`) is an address `Ptr`; address `0`
  is `nullptr`.  The objects pointed to live in a `Heap`.
* Console input is passed as arguments, `system_clock::now()` as the argument
  `now`.  What is printed on `cout` and `cerr` is not part of the state and is
  left out, so the printing members (`ShowAllOrders`, `Show`, `ShowMeals`) have
  no counterpart; the text written to the log file is kept.
-/

/-! ## `double` -/

/-- IEEE 754 binary64 value: NaN, a signed infinity, or a finite number given by
its sign bit and its magnitude (so `fin true 0` is the negative zero). -/
inductive Double where
  | nan : Double
  | inf (neg : Bool) : Double
  | fin (neg : Bool) (mag : ℚ) : Double
  deriving DecidableEq

namespace Double

/-- Number of halvings that bring `n` below two, with an explicit bound on the
number of steps. -/
def log2Fuel : Nat → Nat → Nat
  | 0, _ => 0
  | fuel + 1, n => if n < 2 then 0 else log2Fuel fuel (n / 2) + 1

/-- The integer part of the binary logarithm of a positive natural number. -/
def natLog2 (n : Nat) : Nat := log2Fuel n n

/-- The integer part of the binary logarithm of a positive rational number. -/
def ilog2 (q : ℚ) : ℤ :=
  let k : ℤ := (natLog2 q.num.natAbs : ℤ) - (natLog2 q.den : ℤ)
  if (2 : ℚ) ^ k ≤ q then k else k - 1

/-- Round a non-negative rational to the nearest integer, ties to the even one. -/
def rne (x : ℚ) : ℤ :=
  let f : ℤ := ⌊x⌋
  let d : ℚ := x - f
  if d < 1 / 2 then f
  else if 1 / 2 < d then f + 1
  else if f % 2 = 0 then f else f + 1

/-- Round a non-negative magnitude to binary64 (53 significant bits, least
exponent -1022 with gradual underflow); `none` is overflow. -/
def roundMag (a : ℚ) : Option ℚ :=
  if a = 0 then some 0
  else
    let e : ℤ := max (ilog2 a) (-1022)
    let u : ℚ := (2 : ℚ) ^ (e - 52)
    let r : ℚ := (rne (a / u) : ℚ) * u
    if r < (2 : ℚ) ^ (1024 : ℕ) then some r else none

/-- The binary64 value nearest to a rational number. -/
def round (q : ℚ) : Double :=
  match roundMag |q| with
  | some m => fin (decide (q < 0)) m
  | none => inf (decide (q < 0))

/-- The rational value of a finite sign and magnitude pair. -/
def sval (neg : Bool) (mag : ℚ) : ℚ := if neg then -mag else mag

/-- Unary minus. -/
def neg : Double → Double
  | nan => nan
  | inf s => inf (!s)
  | fin s m => fin (!s) m

/-- Binary64 addition. -/
def add : Double → Double → Double
  | nan, _ => nan
  | _, nan => nan
  | inf a, inf b => if a = b then inf a else nan
  | inf a, fin _ _ => inf a
  | fin _ _, inf b => inf b
  | fin a x, fin b y =>
    let s : ℚ := sval a x + sval b y
    if s = 0 then fin (a && b) 0 else round s

/-- Binary64 subtraction. -/
def sub (x y : Double) : Double := add x (neg y)

/-- The comparison `x < y` of binary64 (false when an operand is NaN). -/
def lt : Double → Double → Bool
  | nan, _ => false
  | _, nan => false
  | inf a, inf b => a && !b
  | inf a, fin _ _ => a
  | fin _ _, inf b => !b
  | fin a x, fin b y => decide (sval a x < sval b y)

/-- The comparison `x <= y` of binary64 (false when an operand is NaN). -/
def le : Double → Double → Bool
  | nan, _ => false
  | _, nan => false
  | inf a, inf b => a || !b
  | inf a, fin _ _ => a
  | fin _ _, inf b => !b
  | fin a x, fin b y => decide (sval a x ≤ sval b y)

instance : Add Double := ⟨add⟩
instance : Sub Double := ⟨sub⟩
instance : LT Double := ⟨fun x y => lt x y = true⟩
instance : LE Double := ⟨fun x y => le x y = true⟩
instance (x y : Double) : Decidable (x < y) := inferInstanceAs (Decidable (lt x y = true))
instance (x y : Double) : Decidable (x ≤ y) := inferInstanceAs (Decidable (le x y = true))

/-- The literal `0` of the source, converted to `double`. -/
instance : OfNat Double 0 := ⟨fin false 0⟩

/-- A decimal or integer literal of the source, converted to `double`. -/
def lit (q : ℚ) : Double := round q

/-- The values a `double` variable can hold: the magnitude of a finite value is
non-negative and is a binary64 number. -/
def valid : Double → Prop
  | nan => True
  | inf _ => True
  | fin _ m => 0 ≤ m ∧ roundMag m = some m

instance : DecidablePred valid := fun x =>
  match x with
  | nan => isTrue trivial
  | inf _ => isTrue trivial
  | fin _ m => inferInstanceAs (Decidable (0 ≤ m ∧ roundMag m = some m))

end Double

/-! ## Outcome of a call that can throw -/

instance : DecidableEq (Except String Unit) := fun a b =>
  match a, b with
  | .ok (), .ok () => isTrue rfl
  | .ok (), .error _ => isFalse (fun h => by cases h)
  | .error _, .ok () => isFalse (fun h => by cases h)
  | .error x, .error y =>
    if h : x = y then isTrue (by rw [h]) else isFalse (fun h2 => by cases h2; exact h rfl)

/-! ## Ingredient -/

structure Vitamin where
  name : String := ""
  deriving DecidableEq

structure Mineral where
  name : String := ""
  deriving DecidableEq

/-- The class `Ingredient`; the structure constructor is the C++ constructor,
which stores its arguments without any check. -/
structure Ingredient where
  name : String
  protein : Double := 0
  calories : Double := 0
  fat : Double := 0
  carb : Double := 0
  vitamin : Vitamin := {}
  mineral : Mineral := {}
  stock : Double := 0
  pricePerKg : Double := 0
  deriving DecidableEq

namespace Ingredient

def GetName (self : Ingredient) : String := self.name
def GetStock (self : Ingredient) : Double := self.stock
def GetPrice (self : Ingredient) : Double := self.pricePerKg

def SetName (self : Ingredient) (n : String) : Except String Unit × Ingredient :=
  if n.isEmpty then (.error "Ingredient name cannot be empty", self)
  else (.ok (), { self with name := n })

def SetProtein (self : Ingredient) (p : Double) : Except String Unit × Ingredient :=
  if p < 0 then (.error "Protein cannot be negative", self)
  else (.ok (), { self with protein := p })

def SetCalories (self : Ingredient) (c : Double) : Except String Unit × Ingredient :=
  if c < 0 then (.error "Calories cannot be negative", self)
  else (.ok (), { self with calories := c })

def SetFat (self : Ingredient) (f : Double) : Except String Unit × Ingredient :=
  if f < 0 then (.error "Fat cannot be negative", self)
  else (.ok (), { self with fat := f })

def SetCarb (self : Ingredient) (c : Double) : Except String Unit × Ingredient :=
  if c < 0 then (.error "Carb cannot be negative", self)
  else (.ok (), { self with carb := c })

def AddStock (self : Ingredient) (s : Double) : Except String Unit × Ingredient :=
  if s ≤ 0 then (.error "Stock to add must be positive", self)
  else (.ok (), { self with stock := self.stock + s })

def ReduceStock (self : Ingredient) (s : Double) : Except String Unit × Ingredient :=
  if s ≤ 0 then (.error "Stock to reduce must be positive", self)
  else if s > self.stock then (.error "Not enough stock", self)
  else (.ok (), { self with stock := self.stock - s })

def SetPrice (self : Ingredient) (p : Double) : Except String Unit × Ingredient :=
  if p < 0 then (.error "Price cannot be negative", self)
  else (.ok (), { self with pricePerKg := p })

end Ingredient

/-! ## Pointers and the heap -/

/-- An address; `0` is `nullptr`. -/
abbrev Ptr := Nat

/-- The ordered map `map<Ingredient*, double>` as a list of entries with
strictly increasing keys; `assign` is `m[k] = v`. -/
def PtrMap.assign : List (Ptr × Double) → Ptr → Double → List (Ptr × Double)
  | [], k, v => [(k, v)]
  | (k', v') :: rest, k, v =>
    if k < k' then (k, v) :: (k', v') :: rest
    else if k = k' then (k, v) :: rest
    else (k', v') :: PtrMap.assign rest k v

/-! ## Food -/

inductive MeasureType where
  | Count
  | Weight
  | Litr
  deriving DecidableEq

/-- The class `Food`; the structure constructor is the C++ constructor, which
stores its arguments without any check and starts with no ingredient. -/
structure Food where
  name : String
  salePrice : Double
  description : String := ""
  measureType : MeasureType := MeasureType.Count
  amount : Double := Double.fin false 1
  ingredients : List (Ptr × Double) := []
  deriving DecidableEq

namespace Food

def GetName (self : Food) : String := self.name
def GetSalePrice (self : Food) : Double := self.salePrice
def GetIngredients (self : Food) : List (Ptr × Double) := self.ingredients

def SetName (self : Food) (n : String) : Except String Unit × Food :=
  if n.isEmpty then (.error "Food name cannot be empty", self)
  else (.ok (), { self with name := n })

def SetSalePrice (self : Food) (p : Double) : Except String Unit × Food :=
  if p < 0 then (.error "Food price cannot be negative", self)
  else (.ok (), { self with salePrice := p })

def AddIngredient (self : Food) (ing : Ptr) (qty : Double) : Except String Unit × Food :=
  if ing = 0 then (.error "Ingredient cannot be null", self)
  else if qty ≤ 0 then (.error "Ingredient quantity must be positive", self)
  else (.ok (), { self with ingredients := PtrMap.assign self.ingredients ing qty })

end Food

/-! ## Meal -/

/-- The class `Meal`: a name and the vector of `Food*` it bundles. -/
structure Meal where
  name : String
  foods : List Ptr := []
  deriving DecidableEq

/-- The objects behind the raw pointers.  `main` frees them only after the menu
loop has ended, so every address that is in use holds an object. -/
structure Heap where
  ingredients : Ptr → Ingredient
  foods : Ptr → Food
  meals : Ptr → Meal

/-- The heap after the object behind the `Food*` `p` has become `f`. -/
def Heap.setFood (h : Heap) (p : Ptr) (f : Food) : Heap :=
  { h with foods := fun q => if q = p then f else h.foods q }

/-- The heap after the object behind the `Meal*` `p` has become `m`. -/
def Heap.setMeal (h : Heap) (p : Ptr) (m : Meal) : Heap :=
  { h with meals := fun q => if q = p then m else h.meals q }

namespace Meal

def GetName (self : Meal) : String := self.name
def GetFoods (self : Meal) : List Ptr := self.foods

def SetName (self : Meal) (n : String) : Except String Unit × Meal :=
  if n.isEmpty then (.error "Meal name cannot be empty", self)
  else (.ok (), { self with name := n })

def AddFood (self : Meal) (f : Ptr) : Except String Unit × Meal :=
  if f = 0 then (.error "Food cannot be null", self)
  else (.ok (), { self with foods := self.foods ++ [f] })

/-- The loop `for(auto f: foods) total+=f->GetSalePrice();` started at `total=0`. -/
def GetTotalPrice (h : Heap) (self : Meal) : Double :=
  self.foods.foldl (fun total f => total + (h.foods f).GetSalePrice) 0

end Meal

/-! ## Order history -/

/-- A reading of `system_clock`, in clock ticks. -/
abbrev Time := Int

structure OrderRecord where
  meals : List Ptr
  totalPrice : Double
  timestamp : Time
  deriving DecidableEq

/-- The constructor `OrderRecord(m, price)`; `now` is `system_clock::now()`. -/
def OrderRecord.new (now : Time) (m : List Ptr) (price : Double) : OrderRecord :=
  { meals := m, totalPrice := price, timestamp := now }

/-- The two library formatters used for the log: `put_time` with the pattern
`%Y-%m-%d %H:%M:%S` on the local time, and `operator<<` on a `double`. -/
structure Fmt where
  time : Time → String
  price : Double → String

/-- The files the process can see: whether a file can be opened for appending,
and the bytes of each file (none for a file that does not exist). -/
structure FileSys where
  canOpen : String → Bool
  content : String → String

/-- Bytes written at the end of one file. -/
def FileSys.append (fs : FileSys) (file : String) (text : String) : FileSys :=
  { fs with content := fun f => if f = file then fs.content f ++ text else fs.content f }

structure History where
  orders : List OrderRecord := []
  deriving DecidableEq

namespace History

def AddOrder (self : History) (now : Time) (cart : List Ptr) (totalPrice : Double) : History :=
  { self with orders := self.orders ++ [OrderRecord.new now cart totalPrice] }

/-- The text `SaveToFile` writes for one order. -/
def line (fmt : Fmt) (h : Heap) (order : OrderRecord) : String :=
  fmt.time order.timestamp ++ " | " ++ fmt.price order.totalPrice ++ " AZN | "
    ++ order.meals.foldl (fun s m => s ++ (h.meals m).GetName ++ " ") "" ++ "\n"

def SaveToFile (self : History) (fmt : Fmt) (h : Heap) (filename : String) (fs : FileSys) :
    Except String Unit × FileSys :=
  if fs.canOpen filename = false then (.error "Cannot open file for writing", fs)
  else (.ok (), self.orders.foldl (fun out order => out.append filename (line fmt h order)) fs)

end History

/-! ## Person, Admin, User -/

structure Person where
  firstName : String := ""
  lastName : String := ""
  email : String := ""
  password : String := ""
  deriving DecidableEq

namespace Person

def GetEmail (self : Person) : String := self.email
def GetPassword (self : Person) : String := self.password

end Person

structure Admin extends Person
  deriving DecidableEq

structure User extends Person where
  history : History := {}
  deriving DecidableEq

/-- The constructor `Admin(f, l, e, p)`. -/
def Admin.new (f l e p : String) : Admin :=
  { firstName := f, lastName := l, email := e, password := p }

def Admin.GetRole (_self : Admin) : String := "Admin"

namespace User

/-- The constructor `User(f, l, e, p)`; the history starts empty. -/
def new (f l e p : String) : User :=
  { firstName := f, lastName := l, email := e, password := p, history := {} }

def GetRole (_self : User) : String := "User"

def AddOrder (self : User) (now : Time) (cart : List Ptr) (totalPrice : Double) : User :=
  { self with history := self.history.AddOrder now cart totalPrice }

def SaveHistoryToFile (self : User) (fmt : Fmt) (h : Heap) (filename : String) (fs : FileSys) :
    Except String Unit × FileSys :=
  self.history.SaveToFile fmt h filename fs

end User

/-! ## Cart -/

structure Cart where
  cart : List Ptr := []
  deriving DecidableEq

namespace Cart

def Add (self : Cart) (m : Ptr) : Except String Unit × Cart :=
  if m = 0 then (.error "Meal cannot be null", self)
  else (.ok (), { self with cart := self.cart ++ [m] })

def Clear (_self : Cart) : Cart := { cart := [] }

/-- The loop `for(auto m:cart) t+=m->GetTotalPrice();` started at `t=0`. -/
def Total (h : Heap) (self : Cart) : Double :=
  self.cart.foldl (fun t m => t + (h.meals m).GetTotalPrice h) 0

def GetCart (self : Cart) : List Ptr := self.cart

end Cart

/-! ## Restaurant -/

structure Restaurant where
  meals : List Ptr := []
  ingredients : List Ptr := []
  budget : Double := 0
  deriving DecidableEq

namespace Restaurant

def AddMeal (self : Restaurant) (m : Ptr) : Except String Unit × Restaurant :=
  if m = 0 then (.error "Meal null", self)
  else (.ok (), { self with meals := self.meals ++ [m] })

def AddIngredient (self : Restaurant) (i : Ptr) : Except String Unit × Restaurant :=
  if i = 0 then (.error "Ingredient null", self)
  else (.ok (), { self with ingredients := self.ingredients ++ [i] })

def GetMeals (self : Restaurant) : List Ptr := self.meals
def GetIngredients (self : Restaurant) : List Ptr := self.ingredients

def AddBudget (self : Restaurant) (amount : Double) : Except String Unit × Restaurant :=
  if amount < 0 then (.error "Budget cannot be negative", self)
  else (.ok (), { self with budget := self.budget + amount })

def GetBudget (self : Restaurant) : Double := self.budget

end Restaurant

/-! ## AuthSystem -/

/-- The class `AuthSystem`.  `admin` and `user` are the pointers of the source:
`none` is `nullptr`, `some a` points to an object created by `Register`, which
is never freed. -/
structure AuthSystem where
  admin : Option Admin := none
  user : Option User := none
  currentRole : String := ""
  deriving DecidableEq

namespace AuthSystem

def LoggedIn (self : AuthSystem) : Bool := self.currentRole != ""
def GetRole (self : AuthSystem) : String := self.currentRole
def GetAdmin (self : AuthSystem) : Option Admin := self.admin
def GetUser (self : AuthSystem) : Option User := self.user

/-- The member `Register`; `role f l e p` are the five values read from the
console before the role is looked at. -/
def Register (self : AuthSystem) (role : Int) (f l e p : String) :
    Except String Unit × AuthSystem :=
  if role = 1 then (.ok (), { self with admin := some (Admin.new f l e p) })
  else if role = 2 then (.ok (), { self with user := some (User.new f l e p) })
  else (.error "Invalid role selected", self)

/-- The test `role==1 && admin && e==admin->GetEmail() && p==admin->GetPassword()`. -/
def adminMatches (self : AuthSystem) (role : Int) (e p : String) : Bool :=
  role = 1 &&
    match self.admin with
    | none => false
    | some a => e = a.GetEmail && p = a.GetPassword

/-- The test `role==2 && user && e==user->GetEmail() && p==user->GetPassword()`. -/
def userMatches (self : AuthSystem) (role : Int) (e p : String) : Bool :=
  role = 2 &&
    match self.user with
    | none => false
    | some u => e = u.GetEmail && p = u.GetPassword

/-- The member `Login`; `role e p` are the three values read from the console. -/
def Login (self : AuthSystem) (role : Int) (e p : String) : Bool × AuthSystem :=
  if self.adminMatches role e p then (true, { self with currentRole := "Admin" })
  else if self.userMatches role e p then (true, { self with currentRole := "User" })
  else (false, self)

def Logout (self : AuthSystem) : AuthSystem := { self with currentRole := "" }

end AuthSystem

/-! ## `main` -/

/-- The variables of `main` that the menu loop reads and writes, the heap and
the file system. -/
structure World where
  auth : AuthSystem := {}
  restaurant : Restaurant := {}
  cart : Cart := {}
  heap : Heap
  fs : FileSys
  running : Bool := true

/-- How one pass through the body of the menu loop ends: normally, in the
handler `catch(exception& e)` with the message it prints, or by dereferencing
a null pointer. -/
inductive Outcome where
  | done
  | caught (what : String)
  | undefined
  deriving DecidableEq

def tomato : Ingredient :=
  { name := "Tomato", protein := Double.lit 1, calories := Double.lit 20, fat := Double.lit 0,
    carb := Double.lit 4, vitamin := {}, mineral := {}, stock := Double.lit 10,
    pricePerKg := Double.lit 2 }

def cheese : Ingredient :=
  { name := "Cheese", protein := Double.lit 25, calories := Double.lit 400, fat := Double.lit 30,
    carb := Double.lit 5, vitamin := {}, mineral := {}, stock := Double.lit 5,
    pricePerKg := Double.lit 10 }

def chicken : Ingredient :=
  { name := "Chicken", protein := Double.lit 20, calories := Double.lit 200, fat := Double.lit 10,
    carb := Double.lit 0, vitamin := {}, mineral := {}, stock := Double.lit 8,
    pricePerKg := Double.lit 7 }

/-- The object `*f1`: `new Food("Tomato Salad",5,"Fresh tomato salad")` followed by
`f1->AddIngredient(tomato,0.2)`; `tomato` is at address 1. -/
def f1 : Food :=
  let f : Food :=
    { name := "Tomato Salad", salePrice := Double.lit 5, description := "Fresh tomato salad" }
  (f.AddIngredient 1 (Double.lit (2 / 10))).2

/-- The object `*f2`; `cheese` is at address 2. -/
def f2 : Food :=
  let f : Food :=
    { name := "Cheese Pizza", salePrice := Double.lit 15, description := "Extra cheese pizza" }
  (f.AddIngredient 2 (Double.lit (1 / 10))).2

/-- The object `*f3`; `chicken` is at address 3. -/
def f3 : Food :=
  let f : Food :=
    { name := "Grilled Chicken", salePrice := Double.lit 20, description := "Grilled chicken" }
  (f.AddIngredient 3 (Double.lit (5 / 10))).2

/-- The object `*m1`; `f1` is at address 1. -/
def m1 : Meal := (Meal.AddFood { name := "Salad Meal" } 1).2

/-- The object `*m2`; `f2` is at address 2. -/
def m2 : Meal := (Meal.AddFood { name := "Pizza Meal" } 2).2

/-- The object `*m3`; `f3` is at address 3. -/
def m3 : Meal := (Meal.AddFood { name := "Chicken Meal" } 3).2

/-- The nine objects `main` allocates: ingredients, foods and meals each at the
addresses 1, 2, 3 of their own kind. -/
def mainHeap : Heap :=
  { ingredients := fun p => if p = 1 then tomato else if p = 2 then cheese else chicken
    foods := fun p => if p = 1 then f1 else if p = 2 then f2 else f3
    meals := fun p => if p = 1 then m1 else if p = 2 then m2 else m3 }

/-- The restaurant after the three `AddIngredient` and the three `AddMeal` calls. -/
def mainRestaurant : Restaurant :=
  let r0 : Restaurant := {}
  let r1 := (r0.AddIngredient 1).2
  let r2 := (r1.AddIngredient 2).2
  let r3 := (r2.AddIngredient 3).2
  let r4 := (r3.AddMeal 1).2
  let r5 := (r4.AddMeal 2).2
  (r5.AddMeal 3).2

/-- The state in which `main` enters the menu loop. -/
def mainInit (fs : FileSys) : World :=
  { auth := {}, restaurant := mainRestaurant, cart := {}, heap := mainHeap, fs := fs,
    running := true }

/-- What is read from the console during one pass through the loop body (each
branch uses the values it asks for), and the clock read by a checkout. -/
structure Input where
  c : Int := 0
  role : Int := 0
  first : String := ""
  last : String := ""
  email : String := ""
  password : String := ""
  choice : Int := 0
  confirm : Char := 'n'
  now : Time := 0

/-- The conversion `(int)` of a `size_t`. -/
def castInt (n : Nat) : Int := ((n : Int) + 2 ^ 31) % 2 ^ 32 - 2 ^ 31

/-- The branch `c==2` of the user menu (add to cart). -/
def addToCartBranch (choice : Int) (w : World) : Outcome × World :=
  if choice > 0 ∧ choice ≤ castInt w.restaurant.GetMeals.length then
    match w.restaurant.GetMeals.get? (choice - 1).toNat with
    | none => (.undefined, w)
    | some m =>
      match w.cart.Add m with
      | (.ok (), cart) => (.done, { w with cart := cart })
      | (.error what, cart) => (.caught what, { w with cart := cart })
  else (.done, w)

/-- The branch `c==4` of the user menu (checkout). -/
def checkoutBranch (fmt : Fmt) (confirm : Char) (now : Time) (w : World) : Outcome × World :=
  let total := w.cart.Total w.heap
  if confirm = 'y' ∨ confirm = 'Y' then
    match w.auth.GetUser with
    | none => (.undefined, w)
    | some u =>
      let u1 := u.AddOrder now w.cart.GetCart total
      let w1 : World := { w with auth := { w.auth with user := some u1 } }
      match u1.SaveHistoryToFile fmt w1.heap "order_history.txt" w1.fs with
      | (.error what, fs) => (.caught what, { w1 with fs := fs })
      | (.ok (), fs) =>
        let w2 : World := { w1 with fs := fs }
        match w2.restaurant.AddBudget total with
        | (.error what, r) => (.caught what, { w2 with restaurant := r })
        | (.ok (), r) => (.done, { w2 with restaurant := r, cart := w2.cart.Clear })
  else (.done, w)

/-- One pass through the body of `while(running)`. -/
def mainIteration (fmt : Fmt) (inp : Input) (w : World) : Outcome × World :=
  if w.auth.LoggedIn = false then
    if inp.c = 1 then (.done, { w with auth := (w.auth.Login inp.role inp.email inp.password).2 })
    else if inp.c = 2 then
      match w.auth.Register inp.role inp.first inp.last inp.email inp.password with
      | (.ok (), auth) => (.done, { w with auth := auth })
      | (.error what, auth) => (.caught what, { w with auth := auth })
    else (.done, { w with running := false })
  else if w.auth.GetRole = "Admin" then
    if inp.c = 1 then (.done, w)
    else if inp.c = 2 then (.done, w)
    else (.done, { w with auth := w.auth.Logout })
  else if w.auth.GetRole = "User" then
    if inp.c = 1 then (.done, w)
    else if inp.c = 2 then addToCartBranch inp.choice w
    else if inp.c = 3 then (.done, w)
    else if inp.c = 4 then checkoutBranch fmt inp.confirm inp.now w
    else if inp.c = 5 then
      match w.auth.GetUser with
      | none => (.undefined, w)
      | some _ => (.done, w)
    else if inp.c = 6 then (.done, { w with auth := w.auth.Logout })
    else (.done, w)
  else (.done, w)

/-- The states the menu loop can be in: the state at loop entry, and every
state one more pass leads to, whatever is typed. -/
inductive Reachable (fmt : Fmt) (fs0 : FileSys) : World → Prop where
  | init : Reachable fmt fs0 (mainInit fs0)
  | step (inp : Input) (w : World) :
      Reachable fmt fs0 w → w.running = true → Reachable fmt fs0 (mainIteration fmt inp w).2

/-- The state after the passes driven by a list of inputs, first input first. -/
def runInputs (fmt : Fmt) (inputs : List Input) (w : World) : World :=
  inputs.foldl (fun v inp => (mainIteration fmt inp v).2) w

/-! ## Notions used in the statements -/

/-- The sum of a list of `double`s as the loops of the source compute it: from
`0`, adding the elements from left to right. -/
def Double.sum (l : List Double) : Double := l.foldl (fun t x => t + x) 0

/-- The `double` holding the whole number `n` (exact below `2^53`). -/
def Double.whole (n : Nat) : Double := Double.fin false (n : ℚ)

/-- The meal after `AddFood` has been called with each pointer of `fs` in turn. -/
def Meal.addFoods (m : Meal) (fs : List Ptr) : Meal :=
  fs.foldl (fun acc f => (acc.AddFood f).2) m

/-- The cart after `Add` has been called with each pointer of `ms` in turn. -/
def Cart.addAll (c : Cart) (ms : List Ptr) : Cart :=
  ms.foldl (fun acc m => (acc.Add m).2) c

/-- The call `f->SetSalePrice(p)` through the pointer `f`. -/
def Heap.SetSalePrice (h : Heap) (f : Ptr) (p : Double) : Except String Unit × Heap :=
  (((h.foods f).SetSalePrice p).1, h.setFood f ((h.foods f).SetSalePrice p).2)

/-- The exact value of a finite `double` (`0` for NaN and the infinities). -/
def Double.toRat : Double → ℚ
  | Double.fin s m => Double.sval s m
  | _ => 0

/-- A heap for examples with decimal prices: the food at address `p` costs
`p/10` (0.1 at address 1, 0.2 at address 2, ...), and the meal at address `p`
holds exactly that food. -/
def decimalHeap : Heap :=
  { ingredients := fun _ => { name := "Flour" }
    foods := fun p => { name := "Dish", salePrice := Double.lit ((p : ℚ) / 10) }
    meals := fun p => { name := "Menu", foods := [p] } }

/-- Whether a `double` is a finite number (not NaN, not an infinity). -/
def Double.isFinite : Double → Bool
  | Double.fin _ _ => true
  | _ => false

/-- A call of one of the mutating member functions of `Ingredient`. -/
inductive IngredientOp where
  | SetName (n : String)
  | SetProtein (p : Double)
  | SetCalories (c : Double)
  | SetFat (f : Double)
  | SetCarb (c : Double)
  | AddStock (s : Double)
  | ReduceStock (s : Double)
  | SetPrice (p : Double)

/-- The call on an ingredient. -/
def IngredientOp.apply (op : IngredientOp) (i : Ingredient) : Except String Unit × Ingredient :=
  match op with
  | .SetName n => i.SetName n
  | .SetProtein p => i.SetProtein p
  | .SetCalories c => i.SetCalories c
  | .SetFat f => i.SetFat f
  | .SetCarb c => i.SetCarb c
  | .AddStock s => i.AddStock s
  | .ReduceStock s => i.ReduceStock s
  | .SetPrice p => i.SetPrice p

/-- The amount passed to `AddStock` or `ReduceStock` is a finite number. -/
def IngredientOp.finiteAmount (op : IngredientOp) : Bool :=
  match op with
  | .AddStock s => s.isFinite
  | .ReduceStock s => s.isFinite
  | _ => true

/-- The ingredient after a sequence of calls, each of which returns or throws
(a throw is caught by the caller and the next call follows). -/
def Ingredient.run (i : Ingredient) (ops : List IngredientOp) : Ingredient :=
  ops.foldl (fun acc op => (op.apply acc).2) i

/-- A logged-in user has an account: in the state "User" the pointer `user` is
not null. -/
def AuthSystem.userPresent (s : AuthSystem) : Prop :=
  s.currentRole = "User" → ∃ u : User, s.user = some u

/-- What the menu loop keeps true of its state: the heap and the menu are those
set up at the start of `main`, the cart holds meals of the menu only, and a
logged-in user has an account. -/
def World.Inv (w : World) : Prop :=
  w.heap = mainHeap ∧ w.restaurant.meals = [1, 2, 3] ∧ (∀ m ∈ w.cart.cart, m ∈ [1, 2, 3]) ∧
    w.auth.userPresent

/-- Formatters for the examples; no statement below depends on the text they
produce. -/
def sampleFmt : Fmt :=
  { time := fun _ => "2026-01-01 12:00:00", price := fun _ => "0" }

/-- A file system in which every file can be opened and is empty. -/
def sampleFs : FileSys :=
  { canOpen := fun _ => true, content := fun _ => "" }

/-- Console input of the scenario: register the user Ali Vali, log in, put meal
number 2 ("Pizza Meal") in the cart twice. -/
def sampleInputs : List Input :=
  [ { c := 2, role := 2, first := "Ali", last := "Vali", email := "a@b.com", password := "pw" },
    { c := 1, role := 2, email := "a@b.com", password := "pw" },
    { c := 2, choice := 2 },
    { c := 2, choice := 2 } ]

/-- The state of the scenario just before the checkout. -/
def sampleWorld : World := runInputs sampleFmt sampleInputs (mainInit sampleFs)

/-- The quantity the map `map<Ingredient*, double>` holds for the key `k`, if
any (`find`). -/
def PtrMap.find : List (Ptr × Double) → Ptr → Option Double
  | [], _ => none
  | (k', v') :: rest, k => if k' = k then some v' else PtrMap.find rest k

/-- The food after `AddIngredient` has been called with each pair of `calls` in
turn, each call returning or throwing. -/
def Food.addIngredients (f : Food) (calls : List (Ptr × Double)) : Food :=
  calls.foldl (fun acc c => (acc.AddIngredient c.1 c.2).2) f

/-- What it means for a member function `call` to be a validated mutator with
the rejected arguments `bad` and the effect `update`: the call throws exactly
on the rejected arguments, a throwing call leaves the object as it was, and a
returning call leaves exactly `update self arg`. -/
def Validated {α β : Type} (call : α → β → Except String Unit × α) (bad : β → Prop)
    (update : α → β → α) : Prop :=
  ∀ (self : α) (arg : β),
    ((call self arg).1.isOk = false ↔ bad arg) ∧
    ((call self arg).1.isOk = false → (call self arg).2 = self) ∧
    ((call self arg).1.isOk = true → (call self arg).2 = update self arg)

/-- The text `SaveToFile` writes for a list of orders: their lines, one after
the other. -/
def History.text (fmt : Fmt) (h : Heap) (orders : List OrderRecord) : String :=
  orders.foldl (fun acc order => acc ++ History.line fmt h order) ""

/-- The history after `AddOrder` has been called once for each element of
`calls`, an element being the clock reading at the call, the cart and the
total. -/
def History.addOrders (h : History) (calls : List (Time × List Ptr × Double)) : History :=
  calls.foldl (fun acc c => acc.AddOrder c.1 c.2.1 c.2.2) h

/-- A call of `Register`, `Login` or `Logout` with what is typed at its prompts. -/
inductive AuthOp where
  | Register (role : Int) (f l e p : String)
  | Login (role : Int) (e p : String)
  | Logout

/-- The `AuthSystem` after the call, whether it returned or threw. -/
def AuthOp.apply (op : AuthOp) (s : AuthSystem) : AuthSystem :=
  match op with
  | .Register role f l e p => (s.Register role f l e p).2
  | .Login role e p => (s.Login role e p).2
  | .Logout => s.Logout

/-- The `AuthSystem` after a sequence of calls. -/
def AuthSystem.run (s : AuthSystem) (ops : List AuthOp) : AuthSystem :=
  ops.foldl (fun acc op => op.apply acc) s

/-- What every sequence of calls keeps true of an `AuthSystem`: the role is "",
"Admin" or "User", and the account of the role that is logged in exists. -/
def AuthSystem.Inv (s : AuthSystem) : Prop :=
  (s.currentRole = "" ∨ s.currentRole = "Admin" ∨ s.currentRole = "User") ∧
  (s.currentRole = "Admin" → ∃ a : Admin, s.admin = some a) ∧
  (s.currentRole = "User" → ∃ u : User, s.user = some u)

/-- A call of one of the mutating member functions of `Restaurant`. -/
inductive RestaurantOp where
  | AddMeal (m : Ptr)
  | AddIngredient (i : Ptr)
  | AddBudget (amount : Double)

/-- The call on a restaurant. -/
def RestaurantOp.apply (op : RestaurantOp) (r : Restaurant) : Except String Unit × Restaurant :=
  match op with
  | .AddMeal m => r.AddMeal m
  | .AddIngredient i => r.AddIngredient i
  | .AddBudget amount => r.AddBudget amount

/-- The amount passed to `AddBudget` is not NaN. -/
def RestaurantOp.notNaN (op : RestaurantOp) : Bool :=
  match op with
  | .AddBudget amount => amount ≠ Double.nan
  | _ => true

/-- The amounts that the `AddBudget` calls of a sequence accept, in order. -/
def RestaurantOp.accepted : List RestaurantOp → List Double
  | [] => []
  | .AddBudget amount :: ops =>
    if amount < 0 then RestaurantOp.accepted ops else amount :: RestaurantOp.accepted ops
  | _ :: ops => RestaurantOp.accepted ops

/-- The restaurant after a sequence of calls, each of which returns or throws. -/
def Restaurant.run (r : Restaurant) (ops : List RestaurantOp) : Restaurant :=
  ops.foldl (fun acc op => (op.apply acc).2) r

/-- Formatters for examples of the log: the clock reading is printed as a
number of ticks and a whole price as `operator<<` prints it (`30` for `30.0`). -/
def clockFmt : Fmt :=
  { time := fun t => "tick " ++ toString t, price := fun d => toString d.toRat }

/-- Console input of a session with two checkouts: register, log in, add "Pizza
Meal" twice, check out (clock reading 5), add "Salad Meal", check out (clock
reading 9). -/
def twoCheckouts : List Input :=
  sampleInputs ++
    [ { c := 4, confirm := 'y', now := 5 },
      { c := 2, choice := 1 },
      { c := 4, confirm := 'y', now := 9 } ]

namespace Double

theorem log2Fuel_le (fuel : Nat) : ∀ n : Nat, 1 ≤ n → n ≤ fuel → 2 ^ log2Fuel fuel n ≤ n := by
  induction fuel with
  | zero => intro n h1 h2; omega
  | succ k ih =>
    intro n h1 h2
    unfold log2Fuel
    by_cases h : n < 2
    · simp [h]; omega
    · simp only [h, if_false]
      have h3 := ih (n / 2) (by omega) (by omega)
      rw [pow_succ]
      omega

theorem natLog2_le (n : Nat) (h : 1 ≤ n) : 2 ^ natLog2 n ≤ n :=
  log2Fuel_le n n h (le_refl n)

theorem ilog2_natCast (n : Nat) (h : 1 ≤ n) : ilog2 (n : ℚ) = (natLog2 n : ℤ) := by
  have h1 : natLog2 1 = 0 := by decide
  have h2 : ((2 : ℚ) ^ natLog2 n) ≤ (n : ℚ) := by exact_mod_cast natLog2_le n h
  simp [ilog2, h1, h2]

theorem rne_intCast (z : ℤ) : rne (z : ℚ) = z := by
  simp [rne]

theorem roundMag_natCast (n : Nat) (h : n < 2 ^ 53) : roundMag (n : ℚ) = some (n : ℚ) := by
  unfold roundMag
  by_cases h0 : (n : ℚ) = 0
  · simp [h0]
  · have hn : 1 ≤ n := by
      rcases Nat.eq_zero_or_pos n with h' | h'
      · exact absurd (by simp [h']) h0
      · exact h'
    have hL : natLog2 n ≤ 52 := by
      by_contra hc
      have h53 : 2 ^ 53 ≤ 2 ^ natLog2 n := Nat.pow_le_pow_right (by norm_num) (by omega)
      have := natLog2_le n hn
      omega
    obtain ⟨d, hd⟩ : ∃ d : Nat, natLog2 n + d = 52 := ⟨52 - natLog2 n, by omega⟩
    have he : max (ilog2 (n : ℚ)) (-1022) - 52 = -(d : ℤ) := by
      rw [ilog2_natCast n hn]
      have : ((natLog2 n : ℤ)) + (d : ℤ) = 52 := by exact_mod_cast hd
      rw [max_eq_left (by omega)]
      omega
    have hu : (2 : ℚ) ^ (-(d : ℤ)) = ((2 : ℚ) ^ d)⁻¹ := by
      rw [zpow_neg, zpow_natCast]
    have hpos : (0 : ℚ) < (2 : ℚ) ^ d := by positivity
    have hdiv : (n : ℚ) / ((2 : ℚ) ^ d)⁻¹ = (((n * 2 ^ d : ℕ) : ℤ) : ℚ) := by
      push_cast
      field_simp
    have hlt : (n : ℚ) < (2 : ℚ) ^ (1024 : ℕ) := by
      have h1 : (n : ℚ) < (2 : ℚ) ^ (53 : ℕ) := by exact_mod_cast h
      have h2 : (2 : ℚ) ^ (53 : ℕ) ≤ (2 : ℚ) ^ (1024 : ℕ) :=
        pow_le_pow_right₀ (by norm_num) (by norm_num)
      exact lt_of_lt_of_le h1 h2
    simp only [h0, if_false, he, hu, hdiv, rne_intCast]
    have hr : ((((n * 2 ^ d : ℕ) : ℤ) : ℚ)) * ((2 : ℚ) ^ d)⁻¹ = (n : ℚ) := by
      push_cast
      field_simp
    rw [hr]
    simp [hlt]

theorem rne_nonneg (x : ℚ) (h : 0 ≤ x) : 0 ≤ rne x := by
  have hf : (0 : ℤ) ≤ ⌊x⌋ := Int.floor_nonneg.mpr h
  unfold rne
  simp only
  split_ifs <;> omega

theorem roundMag_nonneg (a r : ℚ) (h : 0 ≤ a) (hr : roundMag a = some r) : 0 ≤ r := by
  unfold roundMag at hr
  by_cases h0 : a = 0
  · simp [h0] at hr
    rw [← hr]
  · simp only [h0, if_false] at hr
    split_ifs at hr with hlt
    · have hu : (0 : ℚ) < (2 : ℚ) ^ (max (ilog2 a) (-1022) - 52) := by positivity
      have hq : (0 : ℚ) ≤ a / (2 : ℚ) ^ (max (ilog2 a) (-1022) - 52) := by positivity
      have hz : (0 : ℚ) ≤ (rne (a / (2 : ℚ) ^ (max (ilog2 a) (-1022) - 52)) : ℚ) := by
        exact_mod_cast rne_nonneg _ hq
      have := mul_nonneg hz (le_of_lt hu)
      simp only [Option.some.injEq] at hr
      rw [← hr]
      exact this

/-- The literal `0.1` is the binary64 number `0x3FB999999999999A`. -/
theorem lit_tenth : lit (1 / 10) = fin false (3602879701896397 / 36028797018963968) := by
  decide!

/-- The textbook sum: `0.1 + 0.2` is `0.30000000000000004`, not the `double` `0.3`. -/
theorem tenth_add_fifth :
    lit (1 / 10) + lit (2 / 10) = fin false (1351079888211149 / 4503599627370496) ∧
    lit (1 / 10) + lit (2 / 10) ≠ lit (3 / 10) := by
  decide!

/-- Ties go to the even neighbour: `2^53 + 1` rounds down to `2^53`, `2^53 + 3` up
to `2^53 + 4`. -/
theorem round_ties_even :
    lit (2 ^ 53 + 1) = fin false (2 ^ 53) ∧ lit (2 ^ 53 + 3) = fin false (2 ^ 53 + 4) := by
  decide!

/-- Overflow and gradual underflow: the largest finite number is
`2^1024 - 2^971`, half an ulp more is infinite, the least positive number is
`2^-1074` and half of it rounds to zero. -/
theorem round_range :
    lit ((2 : ℚ) ^ 1024 - 2 ^ 971) = fin false ((2 : ℚ) ^ 1024 - 2 ^ 971) ∧
    lit ((2 : ℚ) ^ 1024 - 2 ^ 970) = inf false ∧
    lit ((2 : ℚ) ^ (-1074 : ℤ)) = fin false ((2 : ℚ) ^ (-1074 : ℤ)) ∧
    lit ((2 : ℚ) ^ (-1075 : ℤ)) = fin false 0 ∧
    lit (-(2 : ℚ) ^ (-1075 : ℤ)) = fin true 0 := by
  decide!

/-- NaN compares false with everything, `inf - inf` is NaN, and the two zeros
are equal in comparisons. -/
theorem special_values :
    ¬ (nan ≤ (0 : Double)) ∧ ¬ ((0 : Double) ≤ nan) ∧ ¬ (nan < (0 : Double)) ∧
    inf false - inf false = nan ∧ fin true 0 ≤ (0 : Double) ∧ (0 : Double) ≤ fin true 0 ∧
    (0 : Double) + fin true 0 = fin false 0 ∧ fin true 0 + fin true 0 = fin true 0 := by
  decide!

theorem not_le_of_lt (x y : Double) (h : x < y) : ¬ y ≤ x := by
  change lt x y = true at h
  change ¬ le y x = true
  cases x <;> cases y <;> simp_all [lt, le]

theorem not_lt_of_le (x y : Double) (h : x ≤ y) : ¬ y < x := by
  change le x y = true at h
  change ¬ lt y x = true
  rcases x with _ | a | ⟨a, x⟩ <;> rcases y with _ | b | ⟨b, y⟩ <;> simp_all [lt, le]
  cases a <;> cases b <;> simp_all

theorem zero_lt_fin (s : Bool) (y : ℚ) : (0 : Double) < fin s y ↔ 0 < sval s y := by
  change lt (fin false 0) (fin s y) = true ↔ _
  simp [lt, sval]

theorem fin_le_fin (s t : Bool) (x y : ℚ) : fin s x ≤ fin t y ↔ sval s x ≤ sval t y := by
  change le (fin s x) (fin t y) = true ↔ _
  simp [le]

theorem add_def (x y : Double) : x + y = add x y := rfl

theorem sub_def (x y : Double) : x - y = add x (neg y) := rfl

theorem round_of_pos (q : ℚ) (h : 0 < q) (hq : roundMag q = some q) : round q = fin false q := by
  unfold round
  rw [abs_of_pos h, hq]
  simp [not_lt.mpr (le_of_lt h)]

theorem add_whole (a b : Nat) (h : a + b < 2 ^ 53) : whole a + whole b = whole (a + b) := by
  rw [add_def]
  unfold whole add
  simp only [sval, Bool.false_eq_true, if_false, Bool.and_self]
  by_cases h0 : (a : ℚ) + (b : ℚ) = 0
  · simp [h0]
  · simp only [h0, if_false]
    have hpos : (0 : ℚ) < (a : ℚ) + (b : ℚ) := lt_of_le_of_ne (by positivity) (Ne.symm h0)
    have hr := roundMag_natCast (a + b) h
    push_cast at hr
    rw [round_of_pos _ hpos hr]
    push_cast
    rfl

theorem foldl_add_whole (l : List Nat) : ∀ a : Nat, a + l.sum < 2 ^ 53 →
    (l.map whole).foldl (fun t x => t + x) (whole a) = whole (a + l.sum) := by
  induction l with
  | nil => intro a _; simp
  | cons n l ih =>
    intro a h
    simp only [List.sum_cons] at h
    simp only [List.map_cons, List.foldl_cons, List.sum_cons]
    rw [add_whole a n (by omega), ih (a + n) (by omega)]
    congr 1
    omega

theorem sum_whole (l : List Nat) (h : l.sum < 2 ^ 53) : sum (l.map whole) = whole l.sum := by
  have h0 : (0 : Double) = whole 0 := by
    change fin false 0 = fin false ((0 : Nat) : ℚ)
    simp
  unfold sum
  rw [h0, foldl_add_whole l 0 (by omega)]
  simp

end Double

/-- C1. `ReduceStock(a)` on an ingredient with stock `s` throws exactly when
`a <= 0` or `a > s` (the comparisons of `double`); a throwing call leaves the
ingredient, hence its stock, as it was, and a returning call leaves the stock
at `s - a`. -/
theorem C1_ReduceStock_fails_iff (i : Ingredient) (a : Double) :
    ((i.ReduceStock a).1.isOk = false ↔ (a ≤ 0 ∨ a > i.stock)) ∧
    ((i.ReduceStock a).1.isOk = false → (i.ReduceStock a).2 = i) ∧
    ((i.ReduceStock a).1.isOk = true →
      (i.ReduceStock a).2.GetStock = i.stock - a) := by
  unfold Ingredient.ReduceStock Ingredient.GetStock
  by_cases h1 : a ≤ 0
  · simp [h1, Except.isOk, Except.toBool]
  · by_cases h2 : a > i.stock
    · simp [h1, h2, Except.isOk, Except.toBool]
    · simp [h1, h2, Except.isOk, Except.toBool]

/-- C1 at stock 10: reducing by 4 leaves 6, reducing by 11 throws and leaves 10. -/
theorem C1_ReduceStock_fails_iff_witness :
    (({ name := "Tomato", stock := Double.lit 10 } : Ingredient).ReduceStock (Double.lit 4)).2.GetStock
        = Double.lit 6 ∧
    (({ name := "Tomato", stock := Double.lit 10 } : Ingredient).ReduceStock (Double.lit 11)).2.GetStock
        = Double.lit 10 := by
  have h := C1_ReduceStock_fails_iff { name := "Tomato", stock := Double.lit 10 } (Double.lit 4)
  have h' := C1_ReduceStock_fails_iff { name := "Tomato", stock := Double.lit 10 } (Double.lit 11)
  refine ⟨?_, ?_⟩
  · rw [h.2.2 (by decide!)]; decide!
  · rw [h'.2.1 (by decide!)]; decide!

/-- C2, as stated, fails: with a stock of 0.9 and the amount 0.2 (both as
`double`), `0 < a <= s` holds and both calls return, but the stock ends at
0.8999999999999999 and not at 0.9. -/
theorem C2_counterexample :
    (0 : Double) < Double.lit (2 / 10) ∧ Double.lit (2 / 10) ≤ Double.lit (9 / 10) ∧
    Double.valid (Double.lit (2 / 10)) ∧ Double.valid (Double.lit (9 / 10)) ∧
    ((({ name := "Cheese", stock := Double.lit (9 / 10) } : Ingredient).ReduceStock
        (Double.lit (2 / 10))).2.AddStock (Double.lit (2 / 10))).1 = .ok () ∧
    ((({ name := "Cheese", stock := Double.lit (9 / 10) } : Ingredient).ReduceStock
        (Double.lit (2 / 10))).2.AddStock (Double.lit (2 / 10))).2.GetStock
      = Double.fin false (8106479329266892 / 9007199254740992) ∧
    ((({ name := "Cheese", stock := Double.lit (9 / 10) } : Ingredient).ReduceStock
        (Double.lit (2 / 10))).2.AddStock (Double.lit (2 / 10))).2.GetStock
      ≠ Double.lit (9 / 10) := by
  decide!

/-- C2, amended. For an ingredient with stock `s` and an amount `a` with
`0 < a <= s`, `ReduceStock(a)` and then `AddStock(a)` both return and leave the
stock at `(s - a) + a` as `double` arithmetic computes it; when `s` and `a` are
finite and the difference `s - a` is itself a `double` (the subtraction does not
round), the ingredient is back in its original state, stock included. -/
theorem C2_ReduceStock_then_AddStock (i : Ingredient) (a : Double)
    (h0 : 0 < a) (hle : a ≤ i.stock) :
    (i.ReduceStock a).1 = .ok () ∧
    ((i.ReduceStock a).2.AddStock a).1 = .ok () ∧
    ((i.ReduceStock a).2.AddStock a).2.GetStock = i.stock - a + a ∧
    (∀ x y : ℚ, i.stock = Double.fin false x → a = Double.fin false y →
      Double.roundMag x = some x → Double.roundMag (x - y) = some (x - y) →
      ((i.ReduceStock a).2.AddStock a).2 = i) := by
  have h1 : ¬ a ≤ 0 := Double.not_le_of_lt 0 a h0
  have h2 : ¬ a > i.stock := Double.not_lt_of_le a i.stock hle
  have hred : i.ReduceStock a = (.ok (), { i with stock := i.stock - a }) := by
    unfold Ingredient.ReduceStock
    rw [if_neg h1, if_neg h2]
  have hobj : (i.ReduceStock a).2.AddStock a = (.ok (), { i with stock := i.stock - a + a }) := by
    rw [hred]
    unfold Ingredient.AddStock
    rw [if_neg h1]
  refine ⟨by rw [hred], by rw [hobj], by rw [hobj]; rfl, ?_⟩
  · intro x y hx hy hrx hrxy
    clear h1 h2 hred
    have hypos : 0 < y := by
      have := (Double.zero_lt_fin false y).mp (hy ▸ h0)
      simpa [Double.sval] using this
    have hyx : y ≤ x := by
      have := (Double.fin_le_fin false false y x).mp (by rw [← hx, ← hy]; exact hle)
      simpa [Double.sval] using this
    have hxpos : 0 < x := lt_of_lt_of_le hypos hyx
    have hsub : i.stock - a = Double.fin false (x - y) := by
      rw [hx, hy, Double.sub_def]
      unfold Double.neg Double.add
      simp only [Double.sval, Bool.not_false, if_true, Bool.false_eq_true, if_false]
      by_cases hz : x + -y = 0
      · have : x - y = 0 := by linarith
        simp [hz, this]
      · have hpos : 0 < x - y := by
          have : x - y ≠ 0 := fun h => hz (by linarith)
          exact lt_of_le_of_ne (by linarith) (Ne.symm this)
        simp only [hz, if_false]
        have : x + -y = x - y := by ring
        rw [this, Double.round_of_pos _ hpos hrxy]
    have hadd : i.stock - a + a = i.stock := by
      rw [hsub, hx, hy, Double.add_def]
      unfold Double.add
      simp only [Double.sval, Bool.false_eq_true, if_false]
      have hs : x - y + y = x := by ring
      rw [hs]
      simp only [ne_of_gt hxpos, if_false]
      exact Double.round_of_pos _ hxpos hrx
    rw [hobj, hadd]

/-- C2, amended, at stock 10 and amount 4: the stock is 10 again. -/
theorem C2_ReduceStock_then_AddStock_witness :
    ((({ name := "Tomato", stock := Double.lit 10 } : Ingredient).ReduceStock
        (Double.lit 4)).2.AddStock (Double.lit 4)).2
      = ({ name := "Tomato", stock := Double.lit 10 } : Ingredient) :=
  (C2_ReduceStock_then_AddStock { name := "Tomato", stock := Double.lit 10 } (Double.lit 4)
    (by decide!) (by decide!)).2.2.2 10 4 (by decide!) (by decide!) (by decide!) (by decide!)

/-! ### Meal -/

theorem Meal.addFoods_eq (fs : List Ptr) : ∀ m : Meal, (∀ f ∈ fs, f ≠ 0) →
    m.addFoods fs = { m with foods := m.foods ++ fs } := by
  induction fs with
  | nil => intro m _; simp [Meal.addFoods]
  | cons f fs ih =>
    intro m h
    have hf : f ≠ 0 := h f (List.mem_cons_self f fs)
    have hrest : ∀ g ∈ fs, g ≠ 0 := fun g hg => h g (List.mem_cons_of_mem f hg)
    have hstep : Meal.addFoods m (f :: fs) = Meal.addFoods (m.AddFood f).2 fs := rfl
    rw [hstep, ih _ hrest]
    simp [Meal.AddFood, hf]

theorem Meal.GetTotalPrice_eq_sum (h : Heap) (m : Meal) :
    m.GetTotalPrice h = Double.sum (m.foods.map fun f => (h.foods f).GetSalePrice) := by
  unfold Meal.GetTotalPrice Double.sum
  rw [List.foldl_map]

theorem Heap.SetSalePrice_price (h : Heap) (a : Ptr) (p : Double)
    (hok : (h.SetSalePrice a p).1 = .ok ()) (f : Ptr) :
    ((h.SetSalePrice a p).2.foods f).GetSalePrice
      = if f = a then p else (h.foods f).GetSalePrice := by
  unfold Heap.SetSalePrice Food.SetSalePrice at hok
  unfold Heap.SetSalePrice Food.SetSalePrice Heap.setFood Food.GetSalePrice
  by_cases hp : p < 0
  · rw [if_pos hp] at hok
    cases hok
  · rw [if_neg hp]
    by_cases hf : f = a
    · simp [hf]
    · simp [hf]

theorem sum_replace_sub (price : Ptr → Nat) (a : Ptr) (n : Nat) (fs : List Ptr) :
    (((fs.map fun f => if f = a then n else price f).sum : Nat) : ℤ) - ((fs.map price).sum : Nat)
      = (fs.count a : ℤ) * ((n : ℤ) - (price a : ℤ)) := by
  induction fs with
  | nil => simp
  | cons f fs ih =>
    by_cases hf : f = a
    · subst hf
      simp only [List.map_cons, List.sum_cons, if_true, List.count_cons_self, Nat.cast_add,
        Nat.cast_one]
      linear_combination ih
    · have hc : List.count a (f :: fs) = List.count a fs :=
        List.count_cons_of_ne (fun h => hf h.symm) fs
      simp only [List.map_cons, List.sum_cons, hf, if_false, hc, Nat.cast_add]
      linear_combination ih

/-- C3, as stated, fails: a meal holds the foods at addresses 1 and 2 of
`decimalHeap` (prices 0.1 and 0.2); the second price is changed to 0.5.  The
total goes from 0.30000000000000004 to 0.6, which is not a change by
`1 * (0.5 - 0.2)`, neither exactly nor in `double` arithmetic. -/
theorem C3_counterexample :
    (decimalHeap.SetSalePrice 2 (Double.lit (5 / 10))).1 = .ok () ∧
    List.count 2 ((Meal.mk "Lunch" []).addFoods [1, 2]).foods = 1 ∧
    (((Meal.mk "Lunch" []).addFoods [1, 2]).GetTotalPrice
          (decimalHeap.SetSalePrice 2 (Double.lit (5 / 10))).2).toRat
        - (((Meal.mk "Lunch" []).addFoods [1, 2]).GetTotalPrice decimalHeap).toRat
      ≠ 1 * ((Double.lit (5 / 10)).toRat - ((decimalHeap.foods 2).GetSalePrice).toRat) ∧
    ((Meal.mk "Lunch" []).addFoods [1, 2]).GetTotalPrice decimalHeap
        + (Double.lit (5 / 10) - (decimalHeap.foods 2).GetSalePrice)
      ≠ ((Meal.mk "Lunch" []).addFoods [1, 2]).GetTotalPrice
          (decimalHeap.SetSalePrice 2 (Double.lit (5 / 10))).2 := by
  decide!

/-- C3, amended. For a meal built by successful `AddFood` calls on the pointers
`fs`, `GetTotalPrice()` is the left-to-right `double` sum of the current sale
prices of `fs`; after a successful `SetSalePrice(p')` on the food at address `a`
it is the same sum with `p'` at each occurrence of `a`; and when all prices
involved are whole numbers with sums below `2^53`, the total changes by exactly
`k * (p' - p)`, `k` being the number of occurrences of `a` in the meal. -/
theorem C3_GetTotalPrice_sum (h : Heap) (name : String) (fs : List Ptr)
    (hfs : ∀ f ∈ fs, f ≠ 0) :
    ((Meal.mk name []).addFoods fs).GetTotalPrice h
      = Double.sum (fs.map fun f => (h.foods f).GetSalePrice) ∧
    ∀ (a : Ptr) (p' : Double), (h.SetSalePrice a p').1 = .ok () →
      ((Meal.mk name []).addFoods fs).GetTotalPrice (h.SetSalePrice a p').2
        = Double.sum (fs.map fun f => if f = a then p' else (h.foods f).GetSalePrice) ∧
      ∀ (price : Ptr → Nat) (n' : Nat),
        (∀ f ∈ fs, (h.foods f).GetSalePrice = Double.whole (price f)) →
        p' = Double.whole n' →
        (fs.map price).sum < 2 ^ 53 →
        (fs.map fun f => if f = a then n' else price f).sum < 2 ^ 53 →
        ∃ T T' : Nat,
          ((Meal.mk name []).addFoods fs).GetTotalPrice h = Double.whole T ∧
          ((Meal.mk name []).addFoods fs).GetTotalPrice (h.SetSalePrice a p').2
            = Double.whole T' ∧
          (T' : ℤ) - (T : ℤ) = (fs.count a : ℤ) * ((n' : ℤ) - (price a : ℤ)) := by
  have hfoods : ((Meal.mk name []).addFoods fs).foods = fs := by
    rw [Meal.addFoods_eq fs _ hfs]
    simp
  have hsum : ((Meal.mk name []).addFoods fs).GetTotalPrice h
      = Double.sum (fs.map fun f => (h.foods f).GetSalePrice) := by
    rw [Meal.GetTotalPrice_eq_sum, hfoods]
  refine ⟨hsum, ?_⟩
  intro a p' hok
  have hsum' : ((Meal.mk name []).addFoods fs).GetTotalPrice (h.SetSalePrice a p').2
      = Double.sum (fs.map fun f => if f = a then p' else (h.foods f).GetSalePrice) := by
    rw [Meal.GetTotalPrice_eq_sum, hfoods]
    congr 1
    apply List.map_congr_left
    intro f _
    exact Heap.SetSalePrice_price h a p' hok f
  refine ⟨hsum', ?_⟩
  intro price n' hprice hp' hlt hlt'
  refine ⟨(fs.map price).sum, (fs.map fun f => if f = a then n' else price f).sum, ?_, ?_,
    sum_replace_sub price a n' fs⟩
  · rw [hsum, ← Double.sum_whole _ hlt, List.map_map]
    congr 1
    apply List.map_congr_left
    intro f hf
    exact hprice f hf
  · rw [hsum', ← Double.sum_whole _ hlt', List.map_map]
    congr 1
    apply List.map_congr_left
    intro f hf
    by_cases hfa : f = a
    · simp [hfa, hp']
    · simp [hfa, hprice f hf]

/-- C3, amended, on the sample data of `main`: a meal holding "Cheese Pizza"
(address 2, price 15) twice costs 30; after `SetSalePrice(20)` it costs 40. -/
theorem C3_GetTotalPrice_sum_witness :
    ((Meal.mk "Double Pizza" []).addFoods [2, 2]).GetTotalPrice mainHeap = Double.whole 30 ∧
    ((Meal.mk "Double Pizza" []).addFoods [2, 2]).GetTotalPrice
        (mainHeap.SetSalePrice 2 (Double.whole 20)).2 = Double.whole 40 := by
  have h := C3_GetTotalPrice_sum mainHeap "Double Pizza" [2, 2] (by decide)
  have h2 := h.2 2 (Double.whole 20) (by decide!)
  refine ⟨?_, ?_⟩
  · rw [h.1]; decide!
  · rw [h2.1]; decide!

/-! ### Cart -/

theorem Cart.addAll_eq (ms : List Ptr) : ∀ c : Cart, (∀ m ∈ ms, m ≠ 0) →
    c.addAll ms = { cart := c.cart ++ ms } := by
  induction ms with
  | nil => intro c _; simp [Cart.addAll]
  | cons m ms ih =>
    intro c h
    have hm : m ≠ 0 := h m (List.mem_cons_self m ms)
    have hrest : ∀ g ∈ ms, g ≠ 0 := fun g hg => h g (List.mem_cons_of_mem m hg)
    have hstep : Cart.addAll c (m :: ms) = Cart.addAll (c.Add m).2 ms := rfl
    rw [hstep, ih _ hrest]
    simp [Cart.Add, hm]

theorem Cart.Total_eq_sum (h : Heap) (c : Cart) :
    c.Total h = Double.sum (c.cart.map fun m => (h.meals m).GetTotalPrice h) := by
  unfold Cart.Total Double.sum
  rw [List.foldl_map]

/-- C4, as stated, fails: the meals at addresses 1, 2, 3 of `decimalHeap` cost
0.1, 0.2 and 0.3; added in this order the cart totals 0.6000000000000001, added
in the reverse order it totals 0.6. -/
theorem C4_counterexample :
    List.Perm [3, 2, 1] [1, 2, 3] ∧
    (Cart.addAll {} [1, 2, 3]).Total decimalHeap
      = Double.fin false (5404319552844596 / 9007199254740992) ∧
    (Cart.addAll {} [3, 2, 1]).Total decimalHeap
      = Double.fin false (5404319552844595 / 9007199254740992) ∧
    (Cart.addAll {} [3, 2, 1]).Total decimalHeap ≠ (Cart.addAll {} [1, 2, 3]).Total decimalHeap := by
  decide!

/-- C4, amended. For every sequence `ms` of meals added to an empty cart with
`Add` (duplicates allowed), `Total()` is the left-to-right `double` sum of
`GetTotalPrice()` over `ms` in the order of the calls; when every meal costs a
whole number and the prices add up to less than `2^53`, the result is the same
for every permutation of the order in which the meals were added. -/
theorem C4_Total_sum (h : Heap) (ms : List Ptr) (hms : ∀ m ∈ ms, m ≠ 0) :
    (Cart.addAll {} ms).Total h = Double.sum (ms.map fun m => (h.meals m).GetTotalPrice h) ∧
    ∀ (ms' : List Ptr) (price : Ptr → Nat), ms'.Perm ms →
      (∀ m ∈ ms, (h.meals m).GetTotalPrice h = Double.whole (price m)) →
      (ms.map price).sum < 2 ^ 53 →
      (Cart.addAll {} ms').Total h = (Cart.addAll {} ms).Total h := by
  have key : ∀ l : List Ptr, (∀ m ∈ l, m ≠ 0) →
      (Cart.addAll {} l).Total h = Double.sum (l.map fun m => (h.meals m).GetTotalPrice h) := by
    intro l hl
    rw [Cart.Total_eq_sum, Cart.addAll_eq l _ hl]
    simp
  refine ⟨key ms hms, ?_⟩
  intro ms' price hperm hprice hlt
  have hms' : ∀ m ∈ ms', m ≠ 0 := fun m hm => hms m (hperm.subset hm)
  have hprice' : ∀ m ∈ ms', (h.meals m).GetTotalPrice h = Double.whole (price m) :=
    fun m hm => hprice m (hperm.subset hm)
  have hsumeq : (ms'.map price).sum = (ms.map price).sum := (hperm.map price).sum_eq
  have whole_sum : ∀ l : List Ptr,
      (∀ m ∈ l, (h.meals m).GetTotalPrice h = Double.whole (price m)) →
      (l.map price).sum < 2 ^ 53 →
      Double.sum (l.map fun m => (h.meals m).GetTotalPrice h) = Double.whole (l.map price).sum := by
    intro l hl hlt'
    rw [← Double.sum_whole _ hlt', List.map_map]
    congr 1
    apply List.map_congr_left
    intro m hm
    exact hl m hm
  rw [key ms' hms', key ms hms, whole_sum ms' hprice' (by omega), whole_sum ms hprice hlt, hsumeq]

/-- C4, amended, on the sample data of `main`: the cart "Salad Meal", "Pizza
Meal", "Pizza Meal" (5 + 15 + 15) totals 35, in this order and with the salad
added last. -/
theorem C4_Total_sum_witness :
    (Cart.addAll {} [1, 2, 2]).Total mainHeap = Double.whole 35 ∧
    (Cart.addAll {} [2, 2, 1]).Total mainHeap = (Cart.addAll {} [1, 2, 2]).Total mainHeap := by
  have h := C4_Total_sum mainHeap [1, 2, 2] (by decide)
  refine ⟨?_, ?_⟩
  · rw [h.1]; decide!
  · exact h.2 [2, 2, 1] (fun p => if p = 1 then 5 else 15) (by decide) (by decide!) (by decide)

/-! ### History -/

/-- C5. `AddOrder` appends exactly one record: the number of orders grows by
one, every record stored before is found unchanged at the same position, and
the new last record holds the given meal list and the given total price. -/
theorem C5_AddOrder_appends_one (h : History) (now : Time) (cart : List Ptr)
    (totalPrice : Double) :
    (h.AddOrder now cart totalPrice).orders.length = h.orders.length + 1 ∧
    (∀ i : Nat, i < h.orders.length →
      (h.AddOrder now cart totalPrice).orders[i]? = h.orders[i]?) ∧
    ∃ r : OrderRecord, (h.AddOrder now cart totalPrice).orders.getLast? = some r ∧
      (h.AddOrder now cart totalPrice).orders[h.orders.length]? = some r ∧
      r.meals = cart ∧ r.totalPrice = totalPrice ∧ r.timestamp = now := by
  refine ⟨by simp [History.AddOrder], ?_, ?_⟩
  · intro i hi
    simp [History.AddOrder, List.getElem?_append_left hi]
  · exact ⟨OrderRecord.new now cart totalPrice, by simp [History.AddOrder],
      by simp [History.AddOrder], rfl, rfl, rfl⟩

/-- C5 on a history holding one order: after `AddOrder` there are two, the first
is the old one, the second the new one. -/
theorem C5_AddOrder_appends_one_witness :
    (({ orders := [OrderRecord.new 7 [1] (Double.whole 5)] } : History).AddOrder 9 [2, 2]
        (Double.whole 30)).orders[0]? = some (OrderRecord.new 7 [1] (Double.whole 5)) :=
  ((C5_AddOrder_appends_one { orders := [OrderRecord.new 7 [1] (Double.whole 5)] } 9 [2, 2]
    (Double.whole 30)).2.1 0 (by decide)).trans (by decide)

/-! ### AuthSystem -/

/-- C6. `Login` returns `true` exactly when the role selector is 1 (Admin) or 2
(User), an account is stored in the slot of that role, and the email and the
password typed are equal, character for character, to the stored ones; on
success only the login state changes, to that role; on failure `Login` returns
`false` and the whole `AuthSystem`, login state included, is unchanged. -/
theorem C6_Login_iff (s : AuthSystem) (role : Int) (e p : String) :
    ((s.Login role e p).1 = true ↔
      ((role = 1 ∧ ∃ a : Admin, s.admin = some a ∧ e = a.email ∧ p = a.password) ∨
       (role = 2 ∧ ∃ u : User, s.user = some u ∧ e = u.email ∧ p = u.password))) ∧
    ((s.Login role e p).1 = true →
      (s.Login role e p).2 = { s with currentRole := if role = 1 then "Admin" else "User" }) ∧
    ((s.Login role e p).1 = false → (s.Login role e p).2 = s) := by
  have hA : s.adminMatches role e p = true ↔
      (role = 1 ∧ ∃ a : Admin, s.admin = some a ∧ e = a.email ∧ p = a.password) := by
    unfold AuthSystem.adminMatches Person.GetEmail Person.GetPassword
    cases s.admin <;> simp
  have hU : s.userMatches role e p = true ↔
      (role = 2 ∧ ∃ u : User, s.user = some u ∧ e = u.email ∧ p = u.password) := by
    unfold AuthSystem.userMatches Person.GetEmail Person.GetPassword
    cases s.user <;> simp
  unfold AuthSystem.Login
  rcases Bool.eq_false_or_eq_true (s.adminMatches role e p) with h1 | h1
  · have hr : role = 1 := (hA.mp h1).1
    rw [h1]
    exact ⟨⟨fun _ => Or.inl (hA.mp h1), fun _ => rfl⟩, fun _ => (by simp [hr]),
      fun h => (by cases h)⟩
  · rcases Bool.eq_false_or_eq_true (s.userMatches role e p) with h2 | h2
    · have hr : role = 2 := (hU.mp h2).1
      rw [h1, h2]
      exact ⟨⟨fun _ => Or.inr (hU.mp h2), fun _ => rfl⟩, fun _ => (by simp [hr]),
        fun h => (by cases h)⟩
    · rw [h1, h2]
      refine ⟨⟨fun h => (by cases h), ?_⟩, fun h => (by cases h), fun _ => rfl⟩
      rintro (h | h)
      · rw [hA.mpr h] at h1
        cases h1
      · rw [hU.mpr h] at h2
        cases h2

/-- C6 on a system with one registered user: the right password logs in as
"User", a password differing in the case of one letter does not and leaves the
system logged out. -/
theorem C6_Login_iff_witness :
    (({ user := some (User.new "Ali" "Vali" "a@b.com" "pw") } : AuthSystem).Login 2 "a@b.com"
        "pw").2.currentRole = "User" ∧
    (({ user := some (User.new "Ali" "Vali" "a@b.com" "pw") } : AuthSystem).Login 2 "a@b.com"
        "Pw").2.currentRole = "" := by
  have h1 := (C6_Login_iff { user := some (User.new "Ali" "Vali" "a@b.com" "pw") } 2 "a@b.com"
    "pw").2.1 (by decide)
  have h2 := (C6_Login_iff { user := some (User.new "Ali" "Vali" "a@b.com" "pw") } 2 "a@b.com"
    "Pw").2.2 (by decide)
  rw [h1, h2]
  exact ⟨by decide, by decide⟩

/-- C7. `Register` with a role selector other than 1 and 2 throws "Invalid role
selected" and leaves the `AuthSystem` as it was: the admin slot, the user slot
and the login state are those before the call. -/
theorem C7_Register_invalid_role (s : AuthSystem) (role : Int) (f l e p : String)
    (h1 : role ≠ 1) (h2 : role ≠ 2) :
    (s.Register role f l e p).1 = .error "Invalid role selected" ∧
    (s.Register role f l e p).2.admin = s.admin ∧
    (s.Register role f l e p).2.user = s.user ∧
    (s.Register role f l e p).2.currentRole = s.currentRole ∧
    (s.Register role f l e p).2 = s := by
  unfold AuthSystem.Register
  simp [h1, h2]

/-- C7 with the selector 3 on a system that already holds a user. -/
theorem C7_Register_invalid_role_witness :
    (({ user := some (User.new "Ali" "Vali" "a@b.com" "pw") } : AuthSystem).Register 3
        "X" "Y" "x@y.com" "pw2").2
      = ({ user := some (User.new "Ali" "Vali" "a@b.com" "pw") } : AuthSystem) :=
  (C7_Register_invalid_role { user := some (User.new "Ali" "Vali" "a@b.com" "pw") } 3
    "X" "Y" "x@y.com" "pw2" (by decide) (by decide)).2.2.2.2

/-- C9. A `Register` with selector 1 (resp. 2) returns normally, puts the new
account in the admin (resp. user) slot and leaves the other slot and the login
state unchanged; and after registering `A` and then `B` for the same role with
different credentials, `Login` with the credentials of `A` fails and `Login`
with those of `B` succeeds. -/
theorem C9_Register_overwrites_slot (s : AuthSystem) (role : Int) (hrole : role = 1 ∨ role = 2)
    (fA lA eA pA fB lB eB pB : String) (hne : ¬ (eA = eB ∧ pA = pB)) :
    (s.Register role fA lA eA pA).1 = .ok () ∧
    (role = 1 →
      (s.Register role fA lA eA pA).2.admin = some (Admin.new fA lA eA pA) ∧
      (s.Register role fA lA eA pA).2.user = s.user) ∧
    (role = 2 →
      (s.Register role fA lA eA pA).2.user = some (User.new fA lA eA pA) ∧
      (s.Register role fA lA eA pA).2.admin = s.admin) ∧
    (s.Register role fA lA eA pA).2.currentRole = s.currentRole ∧
    (((s.Register role fA lA eA pA).2.Register role fB lB eB pB).2.Login role eA pA).1 = false ∧
    (((s.Register role fA lA eA pA).2.Register role fB lB eB pB).2.Login role eB pB).1 = true := by
  rcases hrole with hr | hr
  · subst hr
    simp [AuthSystem.Register, AuthSystem.Login, AuthSystem.adminMatches, AuthSystem.userMatches,
      Admin.new, Person.GetEmail, Person.GetPassword, hne]
  · subst hr
    simp [AuthSystem.Register, AuthSystem.Login, AuthSystem.adminMatches, AuthSystem.userMatches,
      User.new, Person.GetEmail, Person.GetPassword, hne]

/-- C9 for two users registered one after the other: the first one can no
longer log in, the second one can. -/
theorem C9_Register_overwrites_slot_witness :
    (((({} : AuthSystem).Register 2 "Ali" "Vali" "a@b.com" "pw").2.Register 2 "Veli" "Aliyev"
        "v@b.com" "pw").2.Login 2 "a@b.com" "pw").1 = false ∧
    (((({} : AuthSystem).Register 2 "Ali" "Vali" "a@b.com" "pw").2.Register 2 "Veli" "Aliyev"
        "v@b.com" "pw").2.Login 2 "v@b.com" "pw").1 = true :=
  (C9_Register_overwrites_slot {} 2 (Or.inr rfl) "Ali" "Vali" "a@b.com" "pw" "Veli" "Aliyev"
    "v@b.com" "pw" (by decide)).2.2.2.2

/-! ### The stock of an ingredient -/

theorem Double.zero_le_fin (s : Bool) (y : ℚ) : (0 : Double) ≤ Double.fin s y ↔ 0 ≤ Double.sval s y := by
  change Double.le (Double.fin false 0) (Double.fin s y) = true ↔ _
  simp [Double.le, Double.sval]

theorem Double.zero_le_add_fin (a b : Bool) (x y : ℚ) (h : 0 ≤ Double.sval a x + Double.sval b y) :
    (0 : Double) ≤ Double.fin a x + Double.fin b y := by
  rw [Double.add_def]
  unfold Double.add
  simp only
  by_cases hz : Double.sval a x + Double.sval b y = 0
  · rw [if_pos hz, Double.zero_le_fin]
    cases (a && b) <;> simp [Double.sval]
  · rw [if_neg hz]
    have hpos : 0 < Double.sval a x + Double.sval b y := lt_of_le_of_ne h (Ne.symm hz)
    unfold Double.round
    rw [abs_of_pos hpos]
    cases hr : Double.roundMag (Double.sval a x + Double.sval b y) with
    | none =>
      simp only [not_lt.mpr h, decide_False]
      decide
    | some m =>
      simp only [not_lt.mpr h, decide_False]
      rw [Double.zero_le_fin]
      simpa [Double.sval] using Double.roundMag_nonneg _ m h hr

theorem Double.sval_not (b : Bool) (y : ℚ) : Double.sval (!b) y = -Double.sval b y := by
  cases b <;> simp [Double.sval]

theorem Ingredient.AddStock_nonneg (i : Ingredient) (s : Double) (h0 : 0 ≤ i.stock)
    (hs : s.isFinite = true) : 0 ≤ (i.AddStock s).2.stock := by
  unfold Ingredient.AddStock
  by_cases h1 : s ≤ 0
  · rw [if_pos h1]; exact h0
  · rw [if_neg h1]
    change (0 : Double) ≤ i.stock + s
    rcases s with _ | b | ⟨b, y⟩
    · cases hs
    · cases hs
    · have hy : 0 < Double.sval b y := by
        have : ¬ Double.sval b y ≤ Double.sval false 0 := fun hc =>
          h1 ((Double.fin_le_fin b false y 0).mpr hc)
        simpa [Double.sval] using this
      clear h1
      rcases hst : i.stock with _ | a | ⟨a, x⟩
      · rw [hst] at h0; cases h0
      · rw [hst] at h0
        cases a
        · rfl
        · cases h0
      · rw [hst] at h0
        have hx := (Double.zero_le_fin a x).mp h0
        exact Double.zero_le_add_fin a b x y (by linarith)

theorem Ingredient.ReduceStock_nonneg (i : Ingredient) (s : Double) (h0 : 0 ≤ i.stock)
    (hs : s.isFinite = true) : 0 ≤ (i.ReduceStock s).2.stock := by
  unfold Ingredient.ReduceStock
  by_cases h1 : s ≤ 0
  · rw [if_pos h1]; exact h0
  · rw [if_neg h1]
    by_cases h2 : s > i.stock
    · rw [if_pos h2]; exact h0
    · rw [if_neg h2]
      change (0 : Double) ≤ i.stock - s
      rcases s with _ | b | ⟨b, y⟩
      · cases hs
      · cases hs
      · rcases hst : i.stock with _ | a | ⟨a, x⟩
        · rw [hst] at h0; cases h0
        · rw [hst] at h0
          cases a
          · rfl
          · cases h0
        · rw [hst] at h2
          have hyx : Double.sval b y ≤ Double.sval a x := by
            by_contra hc
            apply h2
            change Double.lt (Double.fin a x) (Double.fin b y) = true
            simpa [Double.lt] using hc
          clear h1 h2
          rw [Double.sub_def]
          change (0 : Double) ≤ Double.fin a x + Double.fin (!b) y
          exact Double.zero_le_add_fin a (!b) x y (by rw [Double.sval_not]; linarith)

theorem IngredientOp.apply_nonneg (op : IngredientOp) (i : Ingredient) (h0 : 0 ≤ i.stock)
    (hop : op.finiteAmount = true) : 0 ≤ (op.apply i).2.stock := by
  cases op with
  | SetName n => simp only [IngredientOp.apply, Ingredient.SetName]; split_ifs <;> exact h0
  | SetProtein p => simp only [IngredientOp.apply, Ingredient.SetProtein]; split_ifs <;> exact h0
  | SetCalories c => simp only [IngredientOp.apply, Ingredient.SetCalories]; split_ifs <;> exact h0
  | SetFat f => simp only [IngredientOp.apply, Ingredient.SetFat]; split_ifs <;> exact h0
  | SetCarb c => simp only [IngredientOp.apply, Ingredient.SetCarb]; split_ifs <;> exact h0
  | AddStock s => exact Ingredient.AddStock_nonneg i s h0 hop
  | ReduceStock s => exact Ingredient.ReduceStock_nonneg i s h0 hop
  | SetPrice p => simp only [IngredientOp.apply, Ingredient.SetPrice]; split_ifs <;> exact h0

/-- C10, as stated, fails. The constructor stores any stock: an ingredient
constructed with the stock -5 has `GetStock() = -5 < 0` before any call.  And a
non-negative stock is lost by an amount that is not a finite number:
`AddStock(NaN)` passes the test `s<=0` and leaves the stock NaN, and after
`AddStock(inf)` the call `ReduceStock(inf)` leaves `inf - inf`, again NaN, which
is not `>= 0`. -/
theorem C10_counterexample :
    (Ingredient.run { name := "Tomato", stock := Double.lit (-5) } []).GetStock
      = Double.fin true 5 ∧
    (Ingredient.run { name := "Tomato", stock := Double.lit (-5) } []).GetStock < 0 ∧
    ¬ (0 ≤ (Ingredient.run { name := "Tomato", stock := Double.lit (-5) } []).GetStock) ∧
    ¬ (0 ≤ (Ingredient.run { name := "Tomato", stock := Double.lit 10 }
        [IngredientOp.AddStock Double.nan]).GetStock) ∧
    ¬ (0 ≤ (Ingredient.run { name := "Tomato", stock := Double.lit 10 }
        [IngredientOp.AddStock (Double.inf false),
         IngredientOp.ReduceStock (Double.inf false)]).GetStock) := by
  decide!

/-- C10, amended. If the stock given to the constructor is `>= 0`, then after
any sequence of `AddStock`, `ReduceStock` and setter calls, returning or
throwing, whose stock amounts are finite numbers, `GetStock() >= 0`. -/
theorem C10_stock_never_negative (i : Ingredient) (ops : List IngredientOp)
    (h0 : 0 ≤ i.stock) (hfin : ∀ op ∈ ops, op.finiteAmount = true) :
    0 ≤ (i.run ops).GetStock := by
  induction ops generalizing i with
  | nil => exact h0
  | cons op ops ih =>
    have hstep : Ingredient.run i (op :: ops) = Ingredient.run (op.apply i).2 ops := rfl
    rw [hstep]
    exact ih _ (IngredientOp.apply_nonneg op i h0 (hfin op (List.mem_cons_self op ops)))
      (fun o ho => hfin o (List.mem_cons_of_mem op ho))

/-- C10, amended, on the "Tomato" of `main` (stock 10): add 5, try to take 20
(refused), take 15, try to clear the name (refused); the stock ends at 0. -/
theorem C10_stock_never_negative_witness :
    (tomato.run [IngredientOp.AddStock (Double.lit 5), IngredientOp.ReduceStock (Double.lit 20),
        IngredientOp.ReduceStock (Double.lit 15), IngredientOp.SetName ""]).GetStock
      = Double.fin false 0 ∧
    0 ≤ (tomato.run [IngredientOp.AddStock (Double.lit 5), IngredientOp.ReduceStock (Double.lit 20),
        IngredientOp.ReduceStock (Double.lit 15), IngredientOp.SetName ""]).GetStock :=
  ⟨by decide!, C10_stock_never_negative tomato _ (by decide!) (by decide!)⟩

/-! ### The menu loop -/

theorem Double.zero_le_add (x y : Double) (hx : 0 ≤ x) (hy : 0 ≤ y) : 0 ≤ x + y := by
  rcases x with _ | a | ⟨a, x⟩
  · cases hx
  · cases a
    · rcases y with _ | b | ⟨b, y⟩
      · cases hy
      · cases b
        · rfl
        · cases hy
      · rfl
    · cases hx
  · rcases y with _ | b | ⟨b, y⟩
    · cases hy
    · cases b
      · rfl
      · cases hy
    · have h1 := (Double.zero_le_fin a x).mp hx
      have h2 := (Double.zero_le_fin b y).mp hy
      exact Double.zero_le_add_fin a b x y (by linarith)

theorem AuthSystem.Login_userPresent (s : AuthSystem) (role : Int) (e p : String)
    (h : s.userPresent) : (s.Login role e p).2.userPresent := by
  unfold AuthSystem.Login
  rcases Bool.eq_false_or_eq_true (s.adminMatches role e p) with h1 | h1
  · rw [h1]
    intro hc
    change "Admin" = "User" at hc
    exact absurd hc (by decide)
  · rcases Bool.eq_false_or_eq_true (s.userMatches role e p) with h2 | h2
    · rw [h1, h2]
      intro _
      unfold AuthSystem.userMatches at h2
      cases hu : s.user with
      | none => rw [hu] at h2; simp at h2
      | some u => exact ⟨u, rfl⟩
    · rw [h1, h2]
      exact h

theorem AuthSystem.Register_userPresent (s : AuthSystem) (role : Int) (f l e p : String)
    (h : s.userPresent) : (s.Register role f l e p).2.userPresent := by
  unfold AuthSystem.Register
  split_ifs
  · exact h
  · intro _
    exact ⟨_, rfl⟩
  · exact h

theorem AuthSystem.Logout_userPresent (s : AuthSystem) : s.Logout.userPresent := by
  intro hc
  change "" = "User" at hc
  exact absurd hc (by decide)

theorem mainInit_Inv (fs : FileSys) : (mainInit fs).Inv := by
  refine ⟨rfl, rfl, ?_, ?_⟩
  · intro m hm
    cases hm
  · intro hc
    change "" = "User" at hc
    exact absurd hc (by decide)

theorem addToCartBranch_Inv (choice : Int) (w : World) (h : w.Inv) :
    (addToCartBranch choice w).2.Inv := by
  obtain ⟨hheap, hmeals, hcart, hauth⟩ := h
  unfold addToCartBranch
  split_ifs with hc
  · cases hg : w.restaurant.GetMeals.get? (choice - 1).toNat with
    | none => exact ⟨hheap, hmeals, hcart, hauth⟩
    | some m =>
      have hm : m ∈ [1, 2, 3] := by
        have := List.get?_mem hg
        unfold Restaurant.GetMeals at this
        rw [hmeals] at this
        exact this
      have hm0 : m ≠ 0 := by
        intro h0
        rw [h0] at hm
        exact absurd hm (by decide)
      simp only [Cart.Add, hm0, if_false]
      refine ⟨hheap, hmeals, ?_, hauth⟩
      intro x hx
      rcases List.mem_append.mp hx with hx | hx
      · exact hcart x hx
      · rw [List.mem_singleton.mp hx]
        exact hm
  · exact ⟨hheap, hmeals, hcart, hauth⟩

theorem checkoutBranch_Inv (fmt : Fmt) (confirm : Char) (now : Time) (w : World) (h : w.Inv) :
    (checkoutBranch fmt confirm now w).2.Inv := by
  obtain ⟨hheap, hmeals, hcart, hauth⟩ := h
  unfold checkoutBranch
  simp only
  split_ifs with hc
  · unfold AuthSystem.GetUser
    cases hu : w.auth.user with
    | none => exact ⟨hheap, hmeals, hcart, hauth⟩
    | some u =>
      simp only
      unfold User.SaveHistoryToFile History.SaveToFile
      split_ifs with ho
      · exact ⟨hheap, hmeals, hcart, fun _ => ⟨_, rfl⟩⟩
      · simp only
        unfold Restaurant.AddBudget
        split_ifs with hb
        · exact ⟨hheap, hmeals, hcart, fun _ => ⟨_, rfl⟩⟩
        · refine ⟨hheap, hmeals, ?_, fun _ => ⟨_, rfl⟩⟩
          intro m hm
          cases hm
  · exact ⟨hheap, hmeals, hcart, hauth⟩

theorem mainIteration_Inv (fmt : Fmt) (inp : Input) (w : World) (h : w.Inv) :
    (mainIteration fmt inp w).2.Inv := by
  have h' := h
  obtain ⟨hheap, hmeals, hcart, hauth⟩ := h'
  unfold mainIteration
  split_ifs
  · exact ⟨hheap, hmeals, hcart, AuthSystem.Login_userPresent _ _ _ _ hauth⟩
  · have hreg := AuthSystem.Register_userPresent w.auth inp.role inp.first inp.last inp.email
      inp.password hauth
    rcases hr : w.auth.Register inp.role inp.first inp.last inp.email inp.password with ⟨r, a⟩
    rw [hr] at hreg
    cases r with
    | error what => exact ⟨hheap, hmeals, hcart, hreg⟩
    | ok u => exact ⟨hheap, hmeals, hcart, hreg⟩
  · exact ⟨hheap, hmeals, hcart, hauth⟩
  · exact h
  · exact h
  · exact ⟨hheap, hmeals, hcart, AuthSystem.Logout_userPresent _⟩
  · exact h
  · exact addToCartBranch_Inv _ _ h
  · exact h
  · exact checkoutBranch_Inv _ _ _ _ h
  · cases w.auth.GetUser <;> exact h
  · exact ⟨hheap, hmeals, hcart, AuthSystem.Logout_userPresent _⟩
  · exact h
  · exact h

theorem Reachable.inv (fmt : Fmt) (fs0 : FileSys) (w : World) (h : Reachable fmt fs0 w) :
    w.Inv := by
  induction h with
  | init => exact mainInit_Inv fs0
  | step inp w _ _ ih => exact mainIteration_Inv fmt inp w ih

theorem PtrMap.find_assign_self (m : List (Ptr × Double)) (k : Ptr) (v : Double) :
    PtrMap.find (PtrMap.assign m k v) k = some v := by
  induction m with
  | nil => simp [PtrMap.assign, PtrMap.find]
  | cons e m ih =>
    obtain ⟨k', v'⟩ := e
    unfold PtrMap.assign
    by_cases h1 : k < k'
    · simp [h1, PtrMap.find]
    · by_cases h2 : k = k'
      · simp [h1, h2, PtrMap.find]
      · have h3 : ¬ k' = k := fun h => h2 h.symm
        simp [h1, h2, h3, PtrMap.find, ih]

theorem PtrMap.find_assign_other (m : List (Ptr × Double)) (k j : Ptr) (v : Double)
    (hj : j ≠ k) : PtrMap.find (PtrMap.assign m k v) j = PtrMap.find m j := by
  have hkj : ¬ k = j := fun h => hj h.symm
  induction m with
  | nil => simp [PtrMap.assign, PtrMap.find, hkj]
  | cons e m ih =>
    obtain ⟨k', v'⟩ := e
    unfold PtrMap.assign
    by_cases h1 : k < k'
    · simp [h1, PtrMap.find, hkj]
    · by_cases h2 : k = k'
      · subst h2
        simp [PtrMap.find, hkj]
      · by_cases h3 : k' = j
        · subst h3
          simp [h1, hkj, PtrMap.find]
        · simp [h1, h2, h3, PtrMap.find, ih]

theorem PtrMap.assign_assign (m : List (Ptr × Double)) (k : Ptr) (v w : Double) :
    PtrMap.assign (PtrMap.assign m k v) k w = PtrMap.assign m k w := by
  induction m with
  | nil => simp [PtrMap.assign]
  | cons e m ih =>
    obtain ⟨k', v'⟩ := e
    by_cases h1 : k < k'
    · simp [PtrMap.assign, h1]
    · by_cases h2 : k = k'
      · subst h2
        simp [PtrMap.assign]
      · simp [PtrMap.assign, h1, h2, ih]

theorem PtrMap.mem_assign (m : List (Ptr × Double)) (k : Ptr) (v : Double) (e : Ptr × Double)
    (he : e ∈ PtrMap.assign m k v) : e = (k, v) ∨ e ∈ m := by
  induction m with
  | nil => simpa [PtrMap.assign] using he
  | cons e' m ih =>
    obtain ⟨k', v'⟩ := e'
    unfold PtrMap.assign at he
    by_cases h1 : k < k'
    · simp only [h1, if_true, List.mem_cons] at he
      rcases he with he | he | he
      · exact Or.inl he
      · exact Or.inr (by simp [he])
      · exact Or.inr (by simp [he])
    · by_cases h2 : k = k'
      · subst h2
        simp only [lt_irrefl, if_true, if_false, List.mem_cons] at he
        rcases he with he | he
        · exact Or.inl he
        · exact Or.inr (by simp [he])
      · simp only [h1, h2, if_false, List.mem_cons] at he
        rcases he with he | he
        · exact Or.inr (by simp [he])
        · rcases ih he with h | h
          · exact Or.inl h
          · exact Or.inr (by simp [h])

/-- C11. For a non-null ingredient `i` and a quantity `q > 0`,
`AddIngredient(i, q)` returns normally; afterwards the map holds exactly `q`
for `i`, whatever it held for `i` before, and what it holds for every other
ingredient is unchanged; and `AddIngredient(i, q1)` followed by
`AddIngredient(i, q)` leaves the same map as `AddIngredient(i, q)` alone. -/
theorem C11_AddIngredient_overwrites (f : Food) (i : Ptr) (q : Double)
    (hi : i ≠ 0) (hq : 0 < q) :
    (f.AddIngredient i q).1 = .ok () ∧
    PtrMap.find (f.AddIngredient i q).2.GetIngredients i = some q ∧
    (∀ j : Ptr, j ≠ i →
      PtrMap.find (f.AddIngredient i q).2.GetIngredients j = PtrMap.find f.GetIngredients j) ∧
    (∀ q1 : Double, 0 < q1 →
      ((f.AddIngredient i q1).2.AddIngredient i q).2.GetIngredients
        = (f.AddIngredient i q).2.GetIngredients) := by
  have hstep : ∀ (g : Food) (r : Double), 0 < r →
      g.AddIngredient i r
        = (.ok (), { g with ingredients := PtrMap.assign g.ingredients i r }) := by
    intro g r hr
    unfold Food.AddIngredient
    rw [if_neg hi, if_neg (Double.not_le_of_lt 0 r hr)]
  refine ⟨by rw [hstep f q hq], ?_, ?_, ?_⟩
  · rw [hstep f q hq]
    exact PtrMap.find_assign_self _ _ _
  · intro j hj
    rw [hstep f q hq]
    exact PtrMap.find_assign_other _ _ _ _ hj
  · intro q1 hq1
    rw [hstep f q1 hq1, hstep _ q hq, hstep f q hq]
    exact PtrMap.assign_assign _ _ _ _

/-- C11 on the "Tomato Salad" of `main`, which needs 0.2 of tomato (address 1):
after `AddIngredient(tomato, 0.5)` it needs 0.5, not 0.7. -/
theorem C11_AddIngredient_overwrites_witness :
    PtrMap.find f1.GetIngredients 1 = some (Double.lit (2 / 10)) ∧
    PtrMap.find (f1.AddIngredient 1 (Double.lit (5 / 10))).2.GetIngredients 1
      = some (Double.lit (5 / 10)) :=
  ⟨by decide!, (C11_AddIngredient_overwrites f1 1 (Double.lit (5 / 10)) (by decide)
    (by decide!)).2.1⟩

theorem Double.pos_of_not_le (q : Double) (h : ¬ q ≤ 0) (hn : q ≠ Double.nan) : 0 < q := by
  change ¬ Double.le q (Double.fin false 0) = true at h
  change Double.lt (Double.fin false 0) q = true
  rcases q with _ | b | ⟨b, y⟩
  · exact absurd rfl hn
  · cases b
    · rfl
    · exact absurd rfl h
  · simp only [Double.le, Double.lt, decide_eq_true_eq, not_le] at h ⊢
    exact h

theorem Food.AddIngredient_entries (g : Food) (i : Ptr) (q : Double) (hq : q ≠ Double.nan)
    (hg : ∀ e ∈ g.ingredients, 0 < e.2 ∧ e.1 ≠ 0) :
    ∀ e ∈ (g.AddIngredient i q).2.ingredients, 0 < e.2 ∧ e.1 ≠ 0 := by
  unfold Food.AddIngredient
  by_cases h1 : i = 0
  · rw [if_pos h1]; exact hg
  · rw [if_neg h1]
    by_cases h2 : q ≤ 0
    · rw [if_pos h2]; exact hg
    · rw [if_neg h2]
      intro e he
      rcases PtrMap.mem_assign _ _ _ _ he with h | h
      · rw [h]
        exact ⟨Double.pos_of_not_le q h2 hq, h1⟩
      · exact hg e h

/-- C12, as stated, fails: `AddIngredient(i, NaN)` passes the test `qty<=0`, so
the map of a newly constructed food then holds NaN for `i`, which is not a
strictly positive quantity. -/
theorem C12_counterexample :
    ((({ name := "Soup", salePrice := Double.lit 5 } : Food).AddIngredient 1 Double.nan).1
      = .ok ()) ∧
    PtrMap.find (Food.addIngredients { name := "Soup", salePrice := Double.lit 5 }
      [(1, Double.nan)]).GetIngredients 1 = some Double.nan ∧
    ¬ ((0 : Double) < Double.nan) := by
  decide!

/-- C12, amended. In every food obtained from a newly constructed one by any
sequence of `AddIngredient` calls, returning or throwing, whose quantities are
not NaN, every quantity in the ingredient map is strictly positive and no entry
has a null ingredient pointer; and for every food `AddIngredient` throws
exactly when the pointer is null or the quantity is `<= 0`, in which case the
food, its map included, is unchanged. -/
theorem C12_quantities_positive (f : Food) (hf : f.ingredients = [])
    (calls : List (Ptr × Double)) (hcalls : ∀ c ∈ calls, c.2 ≠ Double.nan) :
    (∀ e ∈ (f.addIngredients calls).GetIngredients, 0 < e.2 ∧ e.1 ≠ 0) ∧
    (∀ (g : Food) (i : Ptr) (q : Double),
      ((g.AddIngredient i q).1.isOk = false ↔ (i = 0 ∨ q ≤ 0)) ∧
      ((g.AddIngredient i q).1.isOk = false → (g.AddIngredient i q).2 = g)) := by
  constructor
  · have key : ∀ (l : List (Ptr × Double)) (g : Food),
        (∀ c ∈ l, c.2 ≠ Double.nan) → (∀ e ∈ g.ingredients, 0 < e.2 ∧ e.1 ≠ 0) →
        ∀ e ∈ (g.addIngredients l).ingredients, 0 < e.2 ∧ e.1 ≠ 0 := by
      intro l
      induction l with
      | nil => intro g _ hg; exact hg
      | cons c l ih =>
        intro g hl hg
        have hstep : Food.addIngredients g (c :: l)
            = Food.addIngredients (g.AddIngredient c.1 c.2).2 l := rfl
        rw [hstep]
        exact ih _ (fun d hd => hl d (List.mem_cons_of_mem c hd))
          (Food.AddIngredient_entries g c.1 c.2 (hl c (List.mem_cons_self c l)) hg)
    exact key calls f hcalls (by rw [hf]; intro e he; cases he)
  · intro g i q
    unfold Food.AddIngredient
    by_cases h1 : i = 0
    · simp [h1, Except.isOk, Except.toBool]
    · by_cases h2 : q ≤ 0
      · simp [h1, h2, Except.isOk, Except.toBool]
      · simp [h1, h2, Except.isOk, Except.toBool]

/-- C12, amended, on a new food: after `AddIngredient(1, 0.2)`, the refused
calls `AddIngredient(nullptr, 1)` and `AddIngredient(2, -1)`, and
`AddIngredient(1, 0.5)`, the map holds the one entry `1 -> 0.5`, a positive
quantity for a non-null pointer. -/
theorem C12_quantities_positive_witness :
    (Food.addIngredients { name := "Soup", salePrice := Double.lit 5 }
      [(1, Double.lit (2 / 10)), (0, Double.lit 1), (2, Double.lit (-1)),
       (1, Double.lit (5 / 10))]).GetIngredients = [(1, Double.lit (5 / 10))] ∧
    (0 : Double) < ((1 : Ptr), Double.lit (5 / 10)).2 ∧ ((1 : Ptr), Double.lit (5 / 10)).1 ≠ 0 :=
  ⟨by decide!, (C12_quantities_positive { name := "Soup", salePrice := Double.lit 5 } rfl
    [(1, Double.lit (2 / 10)), (0, Double.lit 1), (2, Double.lit (-1)),
     (1, Double.lit (5 / 10))] (by decide!)).1 (1, Double.lit (5 / 10)) (by decide!)⟩

/-! ### Validated mutators -/

theorem Validated.of_ite {α β : Type} (bad : β → Prop) [DecidablePred bad] (what : String)
    (update : α → β → α) :
    Validated (fun (self : α) (arg : β) =>
      if bad arg then ((Except.error what : Except String Unit), self)
      else (Except.ok (), update self arg)) bad update := by
  intro self arg
  by_cases h : bad arg
  · simp [h, Except.isOk, Except.toBool]
  · simp [h, Except.isOk, Except.toBool]

/-- C14. Each validated mutator throws exactly when its argument is rejected
(an empty string, a number `< 0`, an amount `<= 0` for `AddStock`, a null
pointer); a throwing call leaves the whole object as it was, and a returning
call changes only the field or the collection it targets. -/
theorem C14_validated_mutators :
    Validated Ingredient.SetName (fun n => n.isEmpty = true)
      (fun self n => { self with name := n }) ∧
    Validated Ingredient.SetProtein (fun p => p < 0) (fun self p => { self with protein := p }) ∧
    Validated Ingredient.SetCalories (fun c => c < 0)
      (fun self c => { self with calories := c }) ∧
    Validated Ingredient.SetFat (fun f => f < 0) (fun self f => { self with fat := f }) ∧
    Validated Ingredient.SetCarb (fun c => c < 0) (fun self c => { self with carb := c }) ∧
    Validated Ingredient.SetPrice (fun p => p < 0)
      (fun self p => { self with pricePerKg := p }) ∧
    Validated Ingredient.AddStock (fun s => s ≤ 0)
      (fun self s => { self with stock := self.stock + s }) ∧
    Validated Food.SetName (fun n => n.isEmpty = true) (fun self n => { self with name := n }) ∧
    Validated Food.SetSalePrice (fun p => p < 0) (fun self p => { self with salePrice := p }) ∧
    Validated Meal.SetName (fun n => n.isEmpty = true) (fun self n => { self with name := n }) ∧
    Validated Meal.AddFood (fun f => f = 0)
      (fun self f => { self with foods := self.foods ++ [f] }) ∧
    Validated Cart.Add (fun m => m = 0) (fun self m => { self with cart := self.cart ++ [m] }) ∧
    Validated Restaurant.AddMeal (fun m => m = 0)
      (fun self m => { self with meals := self.meals ++ [m] }) ∧
    Validated Restaurant.AddIngredient (fun i => i = 0)
      (fun self i => { self with ingredients := self.ingredients ++ [i] }) :=
  ⟨Validated.of_ite _ _ _, Validated.of_ite _ _ _, Validated.of_ite _ _ _,
   Validated.of_ite _ _ _, Validated.of_ite _ _ _, Validated.of_ite _ _ _,
   Validated.of_ite _ _ _, Validated.of_ite _ _ _, Validated.of_ite _ _ _,
   Validated.of_ite _ _ _, Validated.of_ite _ _ _, Validated.of_ite _ _ _,
   Validated.of_ite _ _ _, Validated.of_ite _ _ _⟩

/-- C14 on the "Tomato" of `main`: `SetPrice(-1)` throws and leaves it as it
was, `SetPrice(3)` changes the price only. -/
theorem C14_validated_mutators_witness :
    (tomato.SetPrice (Double.lit (-1))).2 = tomato ∧
    (tomato.SetPrice (Double.lit 3)).2 = { tomato with pricePerKg := Double.lit 3 } :=
  ⟨(C14_validated_mutators.2.2.2.2.2.1 tomato (Double.lit (-1))).2.1 (by decide!),
   (C14_validated_mutators.2.2.2.2.2.1 tomato (Double.lit 3)).2.2 (by decide!)⟩

/-! ### The log file and the frame of a checkout -/

theorem FileSys.foldl_append (fmt : Fmt) (h : Heap) (file : String) (orders : List OrderRecord) :
    ∀ fs : FileSys,
      (orders.foldl (fun out order => out.append file (History.line fmt h order)) fs).canOpen
        = fs.canOpen ∧
      (∀ f : String, f ≠ file →
        (orders.foldl (fun out order => out.append file (History.line fmt h order)) fs).content f
          = fs.content f) ∧
      (orders.foldl (fun out order => out.append file (History.line fmt h order)) fs).content file
        = orders.foldl (fun acc order => acc ++ History.line fmt h order) (fs.content file) := by
  induction orders with
  | nil => intro fs; exact ⟨rfl, fun _ _ => rfl, rfl⟩
  | cons o orders ih =>
    intro fs
    simp only [List.foldl_cons]
    obtain ⟨h1, h2, h3⟩ := ih (fs.append file (History.line fmt h o))
    refine ⟨h1, ?_, ?_⟩
    · intro f hf
      rw [h2 f hf]
      simp [FileSys.append, hf]
    · rw [h3]
      simp [FileSys.append]

theorem History.SaveToFile_frame (self : History) (fmt : Fmt) (h : Heap) (file : String)
    (fs : FileSys) :
    (self.SaveToFile fmt h file fs).2.canOpen = fs.canOpen ∧
    ∀ f : String, f ≠ file → (self.SaveToFile fmt h file fs).2.content f = fs.content f := by
  unfold History.SaveToFile
  split_ifs
  · exact ⟨rfl, fun _ _ => rfl⟩
  · exact ⟨(FileSys.foldl_append fmt h file self.orders fs).1,
      (FileSys.foldl_append fmt h file self.orders fs).2.1⟩

/-- C16. A checkout, confirmed or not, ending normally or in the handler, leaves
the heap as it was, so `GetStock()` of every ingredient is what it was before,
and leaves the meal and ingredient collections of the restaurant, the admin
account, the login state, the name, email and password of the user and every
file other than the log unchanged: only the history of the user, the budget,
the cart and the log file can differ. -/
theorem C16_checkout_frame (fmt : Fmt) (confirm : Char) (now : Time) (w : World) :
    (checkoutBranch fmt confirm now w).2.heap = w.heap ∧
    (∀ p : Ptr, ((checkoutBranch fmt confirm now w).2.heap.ingredients p).GetStock
      = (w.heap.ingredients p).GetStock) ∧
    (checkoutBranch fmt confirm now w).2.restaurant.GetMeals = w.restaurant.GetMeals ∧
    (checkoutBranch fmt confirm now w).2.restaurant.GetIngredients
      = w.restaurant.GetIngredients ∧
    (checkoutBranch fmt confirm now w).2.auth.admin = w.auth.admin ∧
    (checkoutBranch fmt confirm now w).2.auth.currentRole = w.auth.currentRole ∧
    (checkoutBranch fmt confirm now w).2.auth.user.map User.toPerson
      = w.auth.user.map User.toPerson ∧
    (checkoutBranch fmt confirm now w).2.running = w.running ∧
    (checkoutBranch fmt confirm now w).2.fs.canOpen = w.fs.canOpen ∧
    (∀ f : String, f ≠ "order_history.txt" →
      (checkoutBranch fmt confirm now w).2.fs.content f = w.fs.content f) := by
  have hheap : (checkoutBranch fmt confirm now w).2.heap = w.heap := by
    unfold checkoutBranch
    simp only
    split_ifs
    · cases w.auth.GetUser with
      | none => rfl
      | some u =>
        simp only
        split <;> [rfl; (split <;> rfl)]
    · rfl
  refine ⟨hheap, fun p => by rw [hheap], ?_⟩
  unfold checkoutBranch
  simp only
  split_ifs
  · unfold AuthSystem.GetUser
    cases hu : w.auth.user with
    | none => simp [hu]
    | some u =>
      simp only
      have hfr := History.SaveToFile_frame (u.AddOrder now w.cart.GetCart (w.cart.Total w.heap)).history
        fmt w.heap "order_history.txt" w.fs
      unfold User.SaveHistoryToFile
      rcases hs : History.SaveToFile (u.AddOrder now w.cart.GetCart (w.cart.Total w.heap)).history
        fmt w.heap "order_history.txt" w.fs with ⟨r, fs'⟩
      rw [hs] at hfr
      cases r with
      | error what => exact ⟨rfl, rfl, rfl, rfl, by simp [hu, User.AddOrder], rfl, hfr.1, hfr.2⟩
      | ok v =>
        simp only
        unfold Restaurant.AddBudget
        split_ifs
        · exact ⟨rfl, rfl, rfl, rfl, by simp [hu, User.AddOrder], rfl, hfr.1, hfr.2⟩
        · exact ⟨rfl, rfl, rfl, rfl, by simp [hu, User.AddOrder], rfl, hfr.1, hfr.2⟩
  · exact ⟨rfl, rfl, rfl, rfl, rfl, rfl, rfl, fun _ _ => rfl⟩

/-- C16 in the scenario of `sampleWorld`: after the confirmed checkout of two
"Pizza Meal", which need cheese, the stock of "Cheese" (address 2) is still 5,
and a file other than the log is untouched. -/
theorem C16_checkout_frame_witness :
    ((checkoutBranch sampleFmt 'y' 5 sampleWorld).2.heap.ingredients 2).GetStock
      = Double.whole 5 ∧
    (checkoutBranch sampleFmt 'y' 5 sampleWorld).2.fs.content "menu.txt"
      = sampleWorld.fs.content "menu.txt" := by
  have h := C16_checkout_frame sampleFmt 'y' 5 sampleWorld
  refine ⟨?_, h.2.2.2.2.2.2.2.2.2 "menu.txt" (by decide)⟩
  rw [h.2.1 2]
  decide!

/-! ### Timestamps -/

theorem History.addOrders_timestamps (calls : List (Time × List Ptr × Double)) :
    ∀ h : History, (h.addOrders calls).orders.map (fun r => r.timestamp)
      = h.orders.map (fun r => r.timestamp) ++ calls.map (fun c => c.1) := by
  induction calls with
  | nil => intro h; simp [History.addOrders]
  | cons c calls ih =>
    intro h
    have hstep : History.addOrders h (c :: calls)
        = History.addOrders (h.AddOrder c.1 c.2.1 c.2.2) calls := rfl
    rw [hstep, ih]
    simp [History.AddOrder, OrderRecord.new]

/-- C17, as stated, fails: `system_clock` is the wall clock and can be set
back between two calls; with the readings 9 and then 7 the second record of the
history carries a timestamp smaller than the first. -/
theorem C17_counterexample :
    ((({} : History).addOrders
        [(9, [2], Double.whole 15), (7, [1], Double.whole 5)]).orders.map
      (fun r => r.timestamp)) = [9, 7] ∧
    ¬ List.Pairwise (fun s t => s ≤ t) ((({} : History).addOrders
        [(9, [2], Double.whole 15), (7, [1], Double.whole 5)]).orders.map
      (fun r => r.timestamp)) := by
  decide

/-- C17, amended. After any sequence of `AddOrder` calls on a new history the
timestamps of the records are, in insertion order, the readings of
`system_clock` at the calls; so when these readings never go back, the
timestamp of each record is `>=` the timestamp of every record appended before
it. -/
theorem C17_timestamps_follow_clock (calls : List (Time × List Ptr × Double)) :
    (({} : History).addOrders calls).orders.map (fun r => r.timestamp)
      = calls.map (fun c => c.1) ∧
    (List.Pairwise (fun s t => s ≤ t) (calls.map (fun c => c.1)) →
      List.Pairwise (fun s t => s ≤ t)
        ((({} : History).addOrders calls).orders.map (fun r => r.timestamp))) := by
  have h := History.addOrders_timestamps calls {}
  simp only [List.map_nil, List.nil_append] at h
  exact ⟨h, fun hp => by rw [h]; exact hp⟩

/-- C17, amended, with the readings 7, 7, 9. -/
theorem C17_timestamps_follow_clock_witness :
    List.Pairwise (fun s t => s ≤ t) ((({} : History).addOrders
        [(7, [2], Double.whole 15), (7, [1], Double.whole 5), (9, [], 0)]).orders.map
      (fun r => r.timestamp)) :=
  (C17_timestamps_follow_clock
    [(7, [2], Double.whole 15), (7, [1], Double.whole 5), (9, [], 0)]).2 (by decide)

/-! ### Reachable states of the AuthSystem -/

theorem AuthOp.apply_Inv (op : AuthOp) (s : AuthSystem) (h : s.Inv) : (op.apply s).Inv := by
  obtain ⟨h1, h2, h3⟩ := h
  cases op with
  | Register role f l e p =>
    simp only [AuthOp.apply, AuthSystem.Register]
    split_ifs
    · exact ⟨h1, fun _ => ⟨_, rfl⟩, h3⟩
    · exact ⟨h1, h2, fun _ => ⟨_, rfl⟩⟩
    · exact ⟨h1, h2, h3⟩
  | Login role e p =>
    simp only [AuthOp.apply, AuthSystem.Login]
    rcases Bool.eq_false_or_eq_true (s.adminMatches role e p) with hA | hA
    · rw [hA]
      refine ⟨Or.inr (Or.inl rfl), fun _ => ?_, fun hc => ?_⟩
      · unfold AuthSystem.adminMatches at hA
        cases ha : s.admin with
        | none => rw [ha] at hA; simp at hA
        | some a => exact ⟨a, rfl⟩
      · change "Admin" = "User" at hc
        exact absurd hc (by decide)
    · rcases Bool.eq_false_or_eq_true (s.userMatches role e p) with hU | hU
      · rw [hA, hU]
        refine ⟨Or.inr (Or.inr rfl), fun hc => ?_, fun _ => ?_⟩
        · change "User" = "Admin" at hc
          exact absurd hc (by decide)
        · unfold AuthSystem.userMatches at hU
          cases hu : s.user with
          | none => rw [hu] at hU; simp at hU
          | some u => exact ⟨u, rfl⟩
      · rw [hA, hU]
        exact ⟨h1, h2, h3⟩
  | Logout =>
    refine ⟨Or.inl rfl, fun hc => ?_, fun hc => ?_⟩
    · change "" = "Admin" at hc
      exact absurd hc (by decide)
    · change "" = "User" at hc
      exact absurd hc (by decide)

theorem AuthSystem.run_Inv (ops : List AuthOp) : ∀ s : AuthSystem, s.Inv → (s.run ops).Inv := by
  induction ops with
  | nil => intro s h; exact h
  | cons op ops ih =>
    intro s h
    exact ih _ (AuthOp.apply_Inv op s h)

theorem checkoutBranch_defined (fmt : Fmt) (confirm : Char) (now : Time) (w : World) (u : User)
    (hu : w.auth.user = some u) : (checkoutBranch fmt confirm now w).1 ≠ Outcome.undefined := by
  unfold checkoutBranch
  simp only
  split_ifs
  · unfold AuthSystem.GetUser
    simp only [hu]
    split
    · intro hc; cases hc
    · split
      · intro hc; cases hc
      · intro hc; cases hc
  · intro hc; cases hc

/-- C18. After any sequence of `Register`, `Login` and `Logout` calls on a new
`AuthSystem` the role is "", "Admin" or "User", with an admin account stored
when it is "Admin" and a user account stored when it is "User"; `Logout` always
leaves the role ""; and in every state the menu loop can reach with the role
"User", the checkout and the order-history branches find a non-null user
pointer, so neither ends by dereferencing `nullptr`. -/
theorem C18_role_has_account :
    (∀ ops : List AuthOp,
      ((AuthSystem.run {} ops).GetRole = "" ∨ (AuthSystem.run {} ops).GetRole = "Admin" ∨
        (AuthSystem.run {} ops).GetRole = "User") ∧
      ((AuthSystem.run {} ops).GetRole = "Admin" →
        ∃ a : Admin, (AuthSystem.run {} ops).GetAdmin = some a) ∧
      ((AuthSystem.run {} ops).GetRole = "User" →
        ∃ u : User, (AuthSystem.run {} ops).GetUser = some u)) ∧
    (∀ s : AuthSystem, s.Logout.GetRole = "" ∧ s.Logout.LoggedIn = false) ∧
    (∀ (fmt : Fmt) (fs0 : FileSys) (w : World), Reachable fmt fs0 w →
      ∀ inp : Input, w.auth.GetRole = "User" → (inp.c = 4 ∨ inp.c = 5) →
        (∃ u : User, w.auth.GetUser = some u) ∧
        (mainIteration fmt inp w).1 ≠ Outcome.undefined) := by
  refine ⟨fun ops => ?_, fun s => ⟨rfl, rfl⟩, ?_⟩
  · have h0 : ({} : AuthSystem).Inv :=
      ⟨Or.inl rfl, fun hc => absurd hc (by decide), fun hc => absurd hc (by decide)⟩
    exact AuthSystem.run_Inv ops {} h0
  · intro fmt fs0 w hreach inp hrole hc
    obtain ⟨_, _, _, hauth⟩ := Reachable.inv fmt fs0 w hreach
    have hrole' : w.auth.currentRole = "User" := hrole
    obtain ⟨u, hu⟩ := hauth hrole'
    refine ⟨⟨u, hu⟩, ?_⟩
    rcases hc with hc | hc
    · have hiter : mainIteration fmt inp w = checkoutBranch fmt inp.confirm inp.now w := by
        unfold mainIteration
        simp [AuthSystem.LoggedIn, AuthSystem.GetRole, hrole', hc]
      rw [hiter]
      exact checkoutBranch_defined fmt inp.confirm inp.now w u hu
    · have hiter : mainIteration fmt inp w = (Outcome.done, w) := by
        unfold mainIteration
        simp [AuthSystem.LoggedIn, AuthSystem.GetRole, AuthSystem.GetUser, hrole', hc, hu]
      rw [hiter]
      intro h
      cases h

/-- C18 on the scenario of `sampleWorld` (a registered user is logged in): the
order-history branch does not dereference `nullptr`; and after the calls
`Register` (user), `Login`, `Logout` the role is "". -/
theorem C18_role_has_account_witness :
    (mainIteration sampleFmt { c := 5 } sampleWorld).1 ≠ Outcome.undefined ∧
    (AuthSystem.run {} [AuthOp.Register 2 "Ali" "Vali" "a@b.com" "pw",
      AuthOp.Login 2 "a@b.com" "pw", AuthOp.Logout]).GetRole = "" :=
  ⟨(C18_role_has_account.2.2 sampleFmt sampleFs sampleWorld
      (Reachable.step _ _ (Reachable.step _ _ (Reachable.step _ _ (Reachable.step _ _
        Reachable.init (by decide!)) (by decide!)) (by decide!)) (by decide!))
      { c := 5 } (by decide!) (Or.inr rfl)).2,
   by decide⟩

/-! ### A checkout whose log file cannot be opened -/

theorem castInt_of_lt (n : Nat) (h : n < 2 ^ 31) : castInt n = (n : Int) := by
  unfold castInt
  have h' : (n : Int) < 2147483648 := by
    have : n < 2147483648 := by simpa using h
    exact_mod_cast this
  have h0 : (0 : Int) ≤ (n : Int) := Int.ofNat_nonneg n
  norm_num
  omega

theorem addToCartBranch_spec (choice : Int) (w : World)
    (hn : w.restaurant.GetMeals.length < 2 ^ 31) (hnz : ∀ m ∈ w.restaurant.GetMeals, m ≠ 0) :
    (1 ≤ choice ∧ choice ≤ (w.restaurant.GetMeals.length : Int) →
      ∃ m : Ptr, w.restaurant.GetMeals.get? (choice - 1).toNat = some m ∧
        addToCartBranch choice w
          = (Outcome.done, { w with cart := { cart := w.cart.GetCart ++ [m] } })) ∧
    (¬ (1 ≤ choice ∧ choice ≤ (w.restaurant.GetMeals.length : Int)) →
      addToCartBranch choice w = (Outcome.done, w)) := by
  constructor
  · rintro ⟨h1, h2⟩
    have hidx : (choice - 1).toNat < w.restaurant.GetMeals.length := by omega
    obtain ⟨m, hm⟩ : ∃ m, w.restaurant.GetMeals.get? (choice - 1).toNat = some m :=
      ⟨_, List.get?_eq_get hidx⟩
    have hm0 : m ≠ 0 := hnz m (List.get?_mem hm)
    refine ⟨m, hm, ?_⟩
    unfold addToCartBranch
    rw [castInt_of_lt _ hn, if_pos ⟨by omega, h2⟩]
    simp only [hm, Cart.Add, hm0, if_false]
    rfl
  · intro h
    unfold addToCartBranch
    rw [castInt_of_lt _ hn, if_neg (fun hc => h ⟨by omega, hc.2⟩)]

/-- C20. In every state the menu loop can reach with the role "User", with `n`
meals on the menu, the add-to-cart action with the number `choice` does this:
if `1 <= choice <= n`, the meal at position `choice` (index `choice - 1`) of the
menu is appended at the end of the cart and nothing else changes; otherwise the
state is unchanged; in both cases the pass ends normally, with no exception and
no index outside the meal list. -/
theorem C20_add_to_cart (fmt : Fmt) (fs0 : FileSys) (w : World)
    (hreach : Reachable fmt fs0 w) (hrole : w.auth.GetRole = "User")
    (inp : Input) (hc : inp.c = 2) :
    (1 ≤ inp.choice ∧ inp.choice ≤ (w.restaurant.GetMeals.length : Int) →
      ∃ m : Ptr, w.restaurant.GetMeals.get? (inp.choice - 1).toNat = some m ∧
        mainIteration fmt inp w
          = (Outcome.done, { w with cart := { cart := w.cart.GetCart ++ [m] } })) ∧
    (¬ (1 ≤ inp.choice ∧ inp.choice ≤ (w.restaurant.GetMeals.length : Int)) →
      mainIteration fmt inp w = (Outcome.done, w)) ∧
    (mainIteration fmt inp w).1 = Outcome.done := by
  obtain ⟨_, hmeals, _, _⟩ := Reachable.inv fmt fs0 w hreach
  have hrole' : w.auth.currentRole = "User" := hrole
  have hiter : mainIteration fmt inp w = addToCartBranch inp.choice w := by
    unfold mainIteration
    simp [AuthSystem.LoggedIn, AuthSystem.GetRole, hrole', hc]
  have hn : w.restaurant.GetMeals.length < 2 ^ 31 := by
    unfold Restaurant.GetMeals
    rw [hmeals]
    norm_num
  have hnz : ∀ m ∈ w.restaurant.GetMeals, m ≠ 0 := by
    unfold Restaurant.GetMeals
    rw [hmeals]
    decide
  obtain ⟨hin, hout⟩ := addToCartBranch_spec inp.choice w hn hnz
  rw [hiter]
  refine ⟨hin, hout, ?_⟩
  by_cases h : 1 ≤ inp.choice ∧ inp.choice ≤ (w.restaurant.GetMeals.length : Int)
  · obtain ⟨m, _, hm⟩ := hin h
    rw [hm]
  · rw [hout h]

/-- C20 in the scenario of `sampleWorld` (three meals on the menu, two "Pizza
Meal" in the cart): the choice 3 appends "Chicken Meal" (address 3), the choices
0 and 4 change nothing. -/
theorem C20_add_to_cart_witness :
    (mainIteration sampleFmt { c := 2, choice := 3 } sampleWorld).2.cart.GetCart = [2, 2, 3] ∧
    (mainIteration sampleFmt { c := 2, choice := 0 } sampleWorld).2.cart.GetCart = [2, 2] ∧
    (mainIteration sampleFmt { c := 2, choice := 4 } sampleWorld).2.cart.GetCart = [2, 2] ∧
    (mainIteration sampleFmt { c := 2, choice := 4 } sampleWorld).1 = Outcome.done :=
  ⟨by decide!, by decide!, by decide!,
   (C20_add_to_cart sampleFmt sampleFs sampleWorld
      (Reachable.step _ _ (Reachable.step _ _ (Reachable.step _ _ (Reachable.step _ _
        Reachable.init (by decide!)) (by decide!)) (by decide!)) (by decide!))
      (by decide!) { c := 2, choice := 4 } rfl).2.2⟩

/-! ### More facts about rounding -/

namespace Double

theorem log2Fuel_lt (fuel : Nat) : ∀ n : Nat, n ≤ fuel → n < 2 ^ (log2Fuel fuel n + 1) := by
  induction fuel with
  | zero =>
    intro n h2
    have h0 : n = 0 := by omega
    subst h0
    simp [log2Fuel]
  | succ k ih =>
    intro n h2
    unfold log2Fuel
    by_cases h : n < 2
    · simp [h]
    · simp only [h, if_false]
      have h3 := ih (n / 2) (by omega)
      rw [pow_succ]
      omega

theorem natLog2_lt (n : Nat) : n < 2 ^ (natLog2 n + 1) :=
  log2Fuel_lt n n (le_refl n)

theorem ilog2_spec (q : ℚ) (hq : 0 < q) :
    (2 : ℚ) ^ ilog2 q ≤ q ∧ q < (2 : ℚ) ^ (ilog2 q + 1) := by
  have hnum : 0 < q.num := Rat.num_pos.mpr hq
  have hn1 : 1 ≤ q.num.natAbs := by omega
  have hd1 : 1 ≤ q.den := q.den_pos
  have hnq : ((q.num.natAbs : ℕ) : ℚ) = q * (q.den : ℚ) := by
    have h1 : ((q.num.natAbs : ℕ) : ℤ) = q.num := Int.natAbs_of_nonneg (le_of_lt hnum)
    have h2 : ((q.num.natAbs : ℕ) : ℚ) = ((q.num : ℤ) : ℚ) := by
      rw [← Int.cast_natCast, h1]
    rw [h2]
    exact (Rat.mul_den_eq_num q).symm
  have hdpos : (0 : ℚ) < (q.den : ℚ) := by exact_mod_cast hd1
  have ha1 : ((2 : ℚ) ^ natLog2 q.num.natAbs) ≤ ((q.num.natAbs : ℕ) : ℚ) := by
    exact_mod_cast natLog2_le _ hn1
  have ha2 : ((q.num.natAbs : ℕ) : ℚ) < (2 : ℚ) ^ (natLog2 q.num.natAbs + 1) := by
    exact_mod_cast natLog2_lt q.num.natAbs
  have hb1 : ((2 : ℚ) ^ natLog2 q.den) ≤ (q.den : ℚ) := by
    exact_mod_cast natLog2_le _ hd1
  have hb2 : (q.den : ℚ) < (2 : ℚ) ^ (natLog2 q.den + 1) := by
    exact_mod_cast natLog2_lt q.den
  rw [hnq] at ha1 ha2
  unfold ilog2
  simp only
  generalize natLog2 q.num.natAbs = a at ha1 ha2
  generalize natLog2 q.den = b at hb1 hb2
  generalize (q.den : ℚ) = d at *
  have h2a : (0 : ℚ) < (2 : ℚ) ^ a := by positivity
  have h2b : (0 : ℚ) < (2 : ℚ) ^ b := by positivity
  have hk : (2 : ℚ) ^ ((a : ℤ) - (b : ℤ)) = (2 : ℚ) ^ a / (2 : ℚ) ^ b := by
    rw [zpow_sub₀ (by norm_num), zpow_natCast, zpow_natCast]
  have hk1 : (2 : ℚ) ^ ((a : ℤ) - (b : ℤ) + 1) = (2 : ℚ) ^ (a + 1) / (2 : ℚ) ^ b := by
    rw [zpow_add₀ (by norm_num), hk, pow_succ]
    simp
    ring
  have hkm : (2 : ℚ) ^ ((a : ℤ) - (b : ℤ) - 1) = (2 : ℚ) ^ a / (2 : ℚ) ^ (b + 1) := by
    rw [zpow_sub₀ (by norm_num), hk, pow_succ]
    simp
    field_simp
  split_ifs with h
  · refine ⟨h, ?_⟩
    rw [hk1, lt_div_iff₀ h2b]
    calc q * (2 : ℚ) ^ b ≤ q * d := by
          apply mul_le_mul_of_nonneg_left hb1 (le_of_lt hq)
      _ < (2 : ℚ) ^ (a + 1) := ha2
  · push_neg at h
    refine ⟨?_, by simpa using h⟩
    rw [hkm, div_le_iff₀ (by positivity)]
    calc (2 : ℚ) ^ a ≤ q * d := ha1
      _ ≤ q * (2 : ℚ) ^ (b + 1) := by
          apply mul_le_mul_of_nonneg_left (le_of_lt hb2) (le_of_lt hq)

theorem ilog2_unique (q : ℚ) (hq : 0 < q) (m : ℤ) (h1 : (2 : ℚ) ^ m ≤ q)
    (h2 : q < (2 : ℚ) ^ (m + 1)) : ilog2 q = m := by
  obtain ⟨s1, s2⟩ := ilog2_spec q hq
  have a1 : ilog2 q < m + 1 :=
    (zpow_lt_zpow_iff_right₀ (by norm_num : (1 : ℚ) < 2)).mp (lt_of_le_of_lt s1 h2)
  have a2 : m < ilog2 q + 1 :=
    (zpow_lt_zpow_iff_right₀ (by norm_num : (1 : ℚ) < 2)).mp (lt_of_le_of_lt h1 s2)
  omega

theorem le_rne (x : ℚ) (z : ℤ) (h : (z : ℚ) ≤ x) : z ≤ rne x := by
  have hf : z ≤ ⌊x⌋ := Int.le_floor.mpr h
  unfold rne
  simp only
  split_ifs <;> omega

theorem rne_le (x : ℚ) (z : ℤ) (h : x ≤ (z : ℚ)) : rne x ≤ z := by
  have hf : ⌊x⌋ ≤ z := by
    have : ((⌊x⌋ : ℤ) : ℚ) ≤ (z : ℚ) := le_trans (Int.floor_le x) h
    exact_mod_cast this
  unfold rne
  simp only
  by_cases hd : x - (⌊x⌋ : ℚ) < 1 / 2
  · rw [if_pos hd]; exact hf
  · have hne : ⌊x⌋ ≠ z := by
      intro he
      have hx : x ≤ (⌊x⌋ : ℚ) := by rw [he]; exact h
      apply hd
      linarith
    have hlt : ⌊x⌋ + 1 ≤ z := by omega
    rw [if_neg hd]
    split_ifs <;> omega


theorem two_zpow_split (e : ℤ) (j : ℕ) :
    (2 : ℚ) ^ (e - 52 + (j : ℤ)) = (2 : ℚ) ^ j * (2 : ℚ) ^ (e - 52) := by
  rw [zpow_add₀ (by norm_num), zpow_natCast, mul_comm]

theorem two_zpow_succ (e : ℤ) : (2 : ℚ) ^ (e + 1) = (2 : ℚ) ^ (53 : ℕ) * (2 : ℚ) ^ (e - 52) := by
  rw [← two_zpow_split]
  congr 1
  push_cast
  ring

theorem two_zpow_self (e : ℤ) : (2 : ℚ) ^ e = (2 : ℚ) ^ (52 : ℕ) * (2 : ℚ) ^ (e - 52) := by
  rw [← two_zpow_split]
  congr 1
  push_cast
  ring

theorem roundMag_of_pos (a : ℚ) (ha : 0 < a) :
    roundMag a =
      if ((rne (a / (2 : ℚ) ^ (max (ilog2 a) (-1022) - 52)) : ℤ) : ℚ)
          * (2 : ℚ) ^ (max (ilog2 a) (-1022) - 52) < (2 : ℚ) ^ (1024 : ℕ)
      then some (((rne (a / (2 : ℚ) ^ (max (ilog2 a) (-1022) - 52)) : ℤ) : ℚ)
          * (2 : ℚ) ^ (max (ilog2 a) (-1022) - 52))
      else none := by
  unfold roundMag
  rw [if_neg (ne_of_gt ha)]

theorem lt_expo (a : ℚ) (ha : 0 < a) : a < (2 : ℚ) ^ (max (ilog2 a) (-1022) + 1) :=
  lt_of_lt_of_le (ilog2_spec a ha).2
    (zpow_le_zpow_right₀ (by norm_num) (by omega))

theorem roundMag_exact (k : ℤ) (e : ℤ) (hk1 : 0 < k) (hk2 : (k : ℚ) < (2 : ℚ) ^ (53 : ℕ))
    (he : -1022 ≤ e) (hnorm : (2 : ℚ) ^ (52 : ℕ) ≤ (k : ℚ) ∨ e = -1022)
    (hlt : (k : ℚ) * (2 : ℚ) ^ (e - 52) < (2 : ℚ) ^ (1024 : ℕ)) :
    roundMag ((k : ℚ) * (2 : ℚ) ^ (e - 52)) = some ((k : ℚ) * (2 : ℚ) ^ (e - 52)) := by
  have hu : (0 : ℚ) < (2 : ℚ) ^ (e - 52) := by positivity
  have hkq : (0 : ℚ) < (k : ℚ) := by exact_mod_cast hk1
  have hr : 0 < (k : ℚ) * (2 : ℚ) ^ (e - 52) := mul_pos hkq hu
  have hup : (k : ℚ) * (2 : ℚ) ^ (e - 52) < (2 : ℚ) ^ (e + 1) := by
    rw [two_zpow_succ]
    exact mul_lt_mul_of_pos_right hk2 hu
  have hlog_le : ilog2 ((k : ℚ) * (2 : ℚ) ^ (e - 52)) < e + 1 :=
    (zpow_lt_zpow_iff_right₀ (by norm_num : (1 : ℚ) < 2)).mp
      (lt_of_le_of_lt (ilog2_spec _ hr).1 hup)
  have hmax : max (ilog2 ((k : ℚ) * (2 : ℚ) ^ (e - 52))) (-1022) = e := by
    rcases hnorm with h | h
    · have hlow : (2 : ℚ) ^ e ≤ (k : ℚ) * (2 : ℚ) ^ (e - 52) := by
        rw [two_zpow_self e]
        exact mul_le_mul_of_nonneg_right h (le_of_lt hu)
      have : e < ilog2 ((k : ℚ) * (2 : ℚ) ^ (e - 52)) + 1 :=
        (zpow_lt_zpow_iff_right₀ (by norm_num : (1 : ℚ) < 2)).mp
          (lt_of_le_of_lt hlow (ilog2_spec _ hr).2)
      rw [max_eq_left (by omega)]
      omega
    · rw [h] at hlog_le ⊢
      rw [max_eq_right (by omega)]
  rw [roundMag_of_pos _ hr, hmax]
  have hdiv : (k : ℚ) * (2 : ℚ) ^ (e - 52) / (2 : ℚ) ^ (e - 52) = (k : ℚ) := by
    field_simp
  rw [hdiv, rne_intCast, if_pos hlt]

theorem roundMag_zero : roundMag 0 = some 0 := by
  simp [roundMag]

theorem div_ulp_lt (a : ℚ) (ha : 0 < a) :
    a / (2 : ℚ) ^ (max (ilog2 a) (-1022) - 52) < (2 : ℚ) ^ (53 : ℕ) := by
  rw [div_lt_iff₀ (by positivity), ← two_zpow_succ]
  exact lt_expo a ha

theorem le_div_ulp (a : ℚ) (ha : 0 < a) (h : -1022 ≤ ilog2 a) :
    (2 : ℚ) ^ (52 : ℕ) ≤ a / (2 : ℚ) ^ (max (ilog2 a) (-1022) - 52) := by
  rw [le_div_iff₀ (by positivity), ← two_zpow_self, max_eq_left h]
  exact (ilog2_spec a ha).1

theorem roundMag_idem (a r : ℚ) (ha : 0 ≤ a) (h : roundMag a = some r) :
    roundMag r = some r := by
  rcases eq_or_lt_of_le ha with h0 | hpos
  · rw [← h0, roundMag_zero] at h
    rw [← Option.some.inj h]
    exact roundMag_zero
  · rw [roundMag_of_pos a hpos] at h
    split_ifs at h with hlt
    have hr := Option.some.inj h
    have hu : (0 : ℚ) < (2 : ℚ) ^ (max (ilog2 a) (-1022) - 52) := by positivity
    have hk0 : 0 ≤ rne (a / (2 : ℚ) ^ (max (ilog2 a) (-1022) - 52)) :=
      rne_nonneg _ (by positivity)
    have hk53 : rne (a / (2 : ℚ) ^ (max (ilog2 a) (-1022) - 52)) ≤ 2 ^ 53 :=
      rne_le _ _ (by push_cast; exact le_of_lt (div_ulp_lt a hpos))
    have he : -1022 ≤ max (ilog2 a) (-1022) := le_max_right _ _
    have hnorm : (2 : ℚ) ^ (52 : ℕ)
          ≤ ((rne (a / (2 : ℚ) ^ (max (ilog2 a) (-1022) - 52)) : ℤ) : ℚ) ∨
        max (ilog2 a) (-1022) = -1022 := by
      by_cases hn : -1022 ≤ ilog2 a
      · left
        have h52 := le_div_ulp a hpos hn
        have : (2 : ℤ) ^ 52 ≤ rne (a / (2 : ℚ) ^ (max (ilog2 a) (-1022) - 52)) :=
          le_rne _ _ (by push_cast; exact h52)
        exact_mod_cast this
      · right
        exact max_eq_right (by omega)
    generalize max (ilog2 a) (-1022) = e at *
    generalize hk : rne (a / (2 : ℚ) ^ (e - 52)) = k at *
    rw [← hr]
    rcases eq_or_lt_of_le hk0 with hz | hkpos
    · rw [← hz]
      simp [roundMag_zero]
    · rcases eq_or_lt_of_le hk53 with h53 | hlt53
      · have hval : (k : ℚ) * (2 : ℚ) ^ (e - 52)
            = (((2 ^ 52 : ℤ)) : ℚ) * (2 : ℚ) ^ (e + 1 - 52) := by
          rw [h53]
          push_cast
          have : (2 : ℚ) ^ (e + 1 - 52) = 2 * (2 : ℚ) ^ (e - 52) := by
            rw [show e + 1 - 52 = 1 + (e - 52) by ring, zpow_add₀ (by norm_num)]
            simp
          rw [this]
          ring
        rw [hval]
        rw [hval] at hlt
        exact roundMag_exact (2 ^ 52) (e + 1) (by norm_num) (by push_cast; norm_num)
          (by omega) (Or.inl (by push_cast; exact le_refl _)) hlt
      · have hkq : (k : ℚ) < (2 : ℚ) ^ (53 : ℕ) := by exact_mod_cast hlt53
        exact roundMag_exact k e hkpos hkq he hnorm hlt

theorem roundMag_ge_grid (b x r : ℚ) (hb : roundMag b = some b) (hb0 : 0 < b) (hx : b ≤ x)
    (hr : roundMag x = some r) : b ≤ r := by
  have hx0 : 0 < x := lt_of_lt_of_le hb0 hx
  rw [roundMag_of_pos b hb0] at hb
  rw [roundMag_of_pos x hx0] at hr
  split_ifs at hb with hblt
  split_ifs at hr with hrlt
  have hbe := Option.some.inj hb
  have hre := Option.some.inj hr
  have hlog : ilog2 b ≤ ilog2 x := by
    have : ilog2 b < ilog2 x + 1 :=
      (zpow_lt_zpow_iff_right₀ (by norm_num : (1 : ℚ) < 2)).mp
        (lt_of_le_of_lt (le_trans (ilog2_spec b hb0).1 hx) (ilog2_spec x hx0).2)
    omega
  have hub : (0 : ℚ) < (2 : ℚ) ^ (max (ilog2 b) (-1022) - 52) := by positivity
  have hux : (0 : ℚ) < (2 : ℚ) ^ (max (ilog2 x) (-1022) - 52) := by positivity
  rcases eq_or_lt_of_le (max_le_max hlog (le_refl (-1022 : ℤ))) with heq | hlt
  · rw [← heq] at hre
    have hkb : ((rne (b / (2 : ℚ) ^ (max (ilog2 b) (-1022) - 52)) : ℤ) : ℚ)
        = b / (2 : ℚ) ^ (max (ilog2 b) (-1022) - 52) := by
      rw [eq_div_iff (ne_of_gt hub)]
      exact hbe
    have hle : rne (b / (2 : ℚ) ^ (max (ilog2 b) (-1022) - 52))
        ≤ rne (x / (2 : ℚ) ^ (max (ilog2 b) (-1022) - 52)) :=
      le_rne _ _ (by rw [hkb]; exact div_le_div_of_nonneg_right hx (le_of_lt hub))
    have hleq : ((rne (b / (2 : ℚ) ^ (max (ilog2 b) (-1022) - 52)) : ℤ) : ℚ)
        ≤ ((rne (x / (2 : ℚ) ^ (max (ilog2 b) (-1022) - 52)) : ℤ) : ℚ) := by
      exact_mod_cast hle
    rw [← hre]
    calc b = ((rne (b / (2 : ℚ) ^ (max (ilog2 b) (-1022) - 52)) : ℤ) : ℚ)
          * (2 : ℚ) ^ (max (ilog2 b) (-1022) - 52) := hbe.symm
      _ ≤ _ := mul_le_mul_of_nonneg_right hleq (le_of_lt hub)
  · have hn : -1022 ≤ ilog2 x := by
      by_contra hc
      rw [max_eq_right (by omega : ilog2 x ≤ -1022)] at hlt
      have := le_max_right (ilog2 b) (-1022)
      omega
    have h52 := le_div_ulp x hx0 hn
    have hk : (2 : ℤ) ^ 52 ≤ rne (x / (2 : ℚ) ^ (max (ilog2 x) (-1022) - 52)) :=
      le_rne _ _ (by push_cast; exact h52)
    have hkq : (2 : ℚ) ^ (52 : ℕ)
        ≤ ((rne (x / (2 : ℚ) ^ (max (ilog2 x) (-1022) - 52)) : ℤ) : ℚ) := by
      exact_mod_cast hk
    have hrlow : (2 : ℚ) ^ (max (ilog2 x) (-1022)) ≤ r := by
      rw [← hre, two_zpow_self (max (ilog2 x) (-1022))]
      exact mul_le_mul_of_nonneg_right hkq (le_of_lt hux)
    have hbup : b < (2 : ℚ) ^ (max (ilog2 b) (-1022) + 1) := lt_expo b hb0
    have hmono : (2 : ℚ) ^ (max (ilog2 b) (-1022) + 1) ≤ (2 : ℚ) ^ (max (ilog2 x) (-1022)) :=
      zpow_le_zpow_right₀ (by norm_num) (by omega)
    linarith

end Double

/-! ### The budget -/

theorem Double.add_valid (x y : Double) : (x + y).valid := by
  rw [Double.add_def]
  rcases x with _ | a | ⟨a, x⟩ <;> rcases y with _ | b | ⟨b, y⟩
  all_goals try exact trivial
  · simp only [Double.add]
    split_ifs <;> exact trivial
  · simp only [Double.add]
    split_ifs with h0
    · exact ⟨le_refl 0, Double.roundMag_zero⟩
    · unfold Double.round
      cases hr : Double.roundMag |Double.sval a x + Double.sval b y| with
      | none => exact trivial
      | some m =>
        exact ⟨Double.roundMag_nonneg _ m (abs_nonneg _) hr,
          Double.roundMag_idem _ m (abs_nonneg _) hr⟩

theorem Double.le_add_of_nonneg (b a : Double) (hv : b.valid) (hb : 0 ≤ b) (ha : 0 ≤ a) :
    b ≤ b + a := by
  rcases b with _ | sb | ⟨sb, x⟩
  · cases hb
  · cases sb
    · rcases a with _ | sa | ⟨sa, y⟩
      · cases ha
      · cases sa
        · rfl
        · cases ha
      · rfl
    · cases hb
  · rcases a with _ | sa | ⟨sa, y⟩
    · cases ha
    · cases sa
      · rfl
      · cases ha
    · have hx := (Double.zero_le_fin sb x).mp hb
      have hy := (Double.zero_le_fin sa y).mp ha
      obtain ⟨hx0, hxr⟩ := hv
      clear hb ha
      rw [Double.add_def]
      simp only [Double.add]
      split_ifs with h0
      · rw [Double.fin_le_fin]
        have : Double.sval (sb && sa) 0 = 0 := by cases (sb && sa) <;> simp [Double.sval]
        rw [this]
        linarith
      · have hpos : 0 < Double.sval sb x + Double.sval sa y :=
          lt_of_le_of_ne (by linarith) (Ne.symm h0)
        unfold Double.round
        rw [abs_of_pos hpos]
        cases hr : Double.roundMag (Double.sval sb x + Double.sval sa y) with
        | none =>
          simp only [not_lt.mpr (le_of_lt hpos), decide_False]
          rfl
        | some m =>
          simp only [not_lt.mpr (le_of_lt hpos), decide_False]
          rw [Double.fin_le_fin]
          have hm0 : 0 ≤ m := Double.roundMag_nonneg _ m (le_of_lt hpos) hr
          rcases eq_or_lt_of_le hx with hz | hxpos
          · rw [← hz]
            simpa [Double.sval] using hm0
          · have hsb : sb = false := by
              cases sb
              · rfl
              · simp [Double.sval] at hxpos
                linarith
            subst hsb
            simp only [Double.sval, Bool.false_eq_true, if_false] at hxpos hy hr ⊢
            exact Double.roundMag_ge_grid x _ m hxr hxpos (by
              cases sa <;> simp [Double.sval] at hy ⊢ <;> linarith) hr

theorem Double.nonneg_of_not_lt (a : Double) (h : ¬ a < 0) (hn : a ≠ Double.nan) : 0 ≤ a := by
  change ¬ Double.lt a (Double.fin false 0) = true at h
  change Double.le (Double.fin false 0) a = true
  rcases a with _ | b | ⟨b, y⟩
  · exact absurd rfl hn
  · cases b
    · rfl
    · exact absurd rfl h
  · simp only [Double.le, Double.lt, decide_eq_true_eq, not_lt] at h ⊢
    exact h

theorem Double.le_self_of_nonneg (b : Double) (hb : 0 ≤ b) : b ≤ b := by
  rcases b with _ | s | ⟨s, x⟩
  · cases hb
  · cases s
    · rfl
    · cases hb
  · rw [Double.fin_le_fin]

theorem Restaurant.run_budget_sum (ops : List RestaurantOp) : ∀ r : Restaurant,
    (r.run ops).budget = (RestaurantOp.accepted ops).foldl (fun t x => t + x) r.budget := by
  induction ops with
  | nil => intro r; rfl
  | cons op ops ih =>
    intro r
    have hstep : Restaurant.run r (op :: ops) = Restaurant.run (op.apply r).2 ops := rfl
    rw [hstep, ih]
    cases op with
    | AddMeal m =>
      simp only [RestaurantOp.apply, RestaurantOp.accepted, Restaurant.AddMeal]
      split_ifs <;> rfl
    | AddIngredient i =>
      simp only [RestaurantOp.apply, RestaurantOp.accepted, Restaurant.AddIngredient]
      split_ifs <;> rfl
    | AddBudget a =>
      simp only [RestaurantOp.apply, RestaurantOp.accepted, Restaurant.AddBudget]
      split_ifs <;> rfl

theorem RestaurantOp.apply_budget (op : RestaurantOp) (r : Restaurant) (hop : op.notNaN = true)
    (hv : r.budget.valid) (h0 : 0 ≤ r.budget) :
    (op.apply r).2.budget.valid ∧ 0 ≤ (op.apply r).2.budget ∧
      r.budget ≤ (op.apply r).2.budget := by
  have hself := Double.le_self_of_nonneg r.budget h0
  cases op with
  | AddMeal m =>
    simp only [RestaurantOp.apply, Restaurant.AddMeal]
    split_ifs <;> exact ⟨hv, h0, hself⟩
  | AddIngredient i =>
    simp only [RestaurantOp.apply, Restaurant.AddIngredient]
    split_ifs <;> exact ⟨hv, h0, hself⟩
  | AddBudget a =>
    simp only [RestaurantOp.apply, Restaurant.AddBudget]
    by_cases ha : a < 0
    · rw [if_pos ha]
      exact ⟨hv, h0, hself⟩
    · rw [if_neg ha]
      have hn : a ≠ Double.nan := by simpa [RestaurantOp.notNaN] using hop
      have ha0 : 0 ≤ a := Double.nonneg_of_not_lt a ha hn
      exact ⟨Double.add_valid _ _, Double.zero_le_add _ _ h0 ha0,
        Double.le_add_of_nonneg _ _ hv h0 ha0⟩

theorem Restaurant.run_budget (ops : List RestaurantOp) : ∀ r : Restaurant,
    (∀ op ∈ ops, op.notNaN = true) → r.budget.valid → 0 ≤ r.budget →
    (r.run ops).budget.valid ∧ 0 ≤ (r.run ops).budget := by
  induction ops with
  | nil => intro r _ hv h0; exact ⟨hv, h0⟩
  | cons op ops ih =>
    intro r hops hv h0
    obtain ⟨h1, h2, _⟩ := RestaurantOp.apply_budget op r (hops op (List.mem_cons_self op ops))
      hv h0
    exact ih _ (fun o ho => hops o (List.mem_cons_of_mem op ho)) h1 h2

/-- C13, as stated, fails: `AddBudget(NaN)` passes the test `amount<0`, and the
budget of a new restaurant is then NaN, which is not `>= 0`. -/
theorem C13_counterexample :
    ((({} : Restaurant).AddBudget Double.nan).1 = .ok ()) ∧
    (Restaurant.run {} [RestaurantOp.AddBudget Double.nan]).GetBudget = Double.nan ∧
    ¬ (0 ≤ (Restaurant.run {} [RestaurantOp.AddBudget Double.nan]).GetBudget) := by
  decide!

/-- C13, amended. `AddBudget(amount)` throws, leaving the restaurant unchanged,
exactly when `amount < 0`, and otherwise replaces the budget by
`budget + amount` and changes nothing else; and in every state a new
restaurant reaches by `AddMeal`, `AddIngredient` and `AddBudget` calls whose
amounts are not NaN, the budget is `>= 0`, is the sum, from 0 and from left to
right in `double` arithmetic, of the accepted amounts, and is not decreased by
a further such call. -/
theorem C13_budget_accumulates :
    (∀ (r : Restaurant) (amount : Double),
      ((r.AddBudget amount).1.isOk = false ↔ amount < 0) ∧
      ((r.AddBudget amount).1.isOk = false → (r.AddBudget amount).2 = r) ∧
      ((r.AddBudget amount).1.isOk = true →
        (r.AddBudget amount).2 = { r with budget := r.budget + amount })) ∧
    (∀ ops : List RestaurantOp, (∀ op ∈ ops, op.notNaN = true) →
      0 ≤ (Restaurant.run {} ops).GetBudget ∧
      (Restaurant.run {} ops).GetBudget = Double.sum (RestaurantOp.accepted ops) ∧
      ∀ op : RestaurantOp, op.notNaN = true →
        (Restaurant.run {} ops).GetBudget ≤ (op.apply (Restaurant.run {} ops)).2.GetBudget) := by
  constructor
  · intro r amount
    unfold Restaurant.AddBudget
    by_cases h : amount < 0
    · simp [h, Except.isOk, Except.toBool]
    · simp [h, Except.isOk, Except.toBool]
  · intro ops hops
    have hv0 : ({} : Restaurant).budget.valid := ⟨le_refl 0, Double.roundMag_zero⟩
    have h00 : (0 : Double) ≤ ({} : Restaurant).budget := by decide
    obtain ⟨hv, h0⟩ := Restaurant.run_budget ops {} hops hv0 h00
    refine ⟨h0, Restaurant.run_budget_sum ops {}, ?_⟩
    intro op hop
    exact (RestaurantOp.apply_budget op _ hop hv h0).2.2

/-- C13, amended, on a new restaurant: after `AddBudget(30)`, the refused
`AddBudget(-5)` and `AddBudget(15)` the budget is 45, and `AddBudget(0.1)` does
not decrease it. -/
theorem C13_budget_accumulates_witness :
    (Restaurant.run {} [RestaurantOp.AddBudget (Double.lit 30),
      RestaurantOp.AddBudget (Double.lit (-5)),
      RestaurantOp.AddBudget (Double.lit 15)]).GetBudget = Double.whole 45 ∧
    (Restaurant.run {} [RestaurantOp.AddBudget (Double.lit 30),
      RestaurantOp.AddBudget (Double.lit (-5)),
      RestaurantOp.AddBudget (Double.lit 15)]).GetBudget
      ≤ ((RestaurantOp.AddBudget (Double.lit (1 / 10))).apply
          (Restaurant.run {} [RestaurantOp.AddBudget (Double.lit 30),
            RestaurantOp.AddBudget (Double.lit (-5)),
            RestaurantOp.AddBudget (Double.lit 15)])).2.GetBudget :=
  ⟨by decide!, (C13_budget_accumulates.2 [RestaurantOp.AddBudget (Double.lit 30),
      RestaurantOp.AddBudget (Double.lit (-5)),
      RestaurantOp.AddBudget (Double.lit 15)] (by decide!)).2.2
    (RestaurantOp.AddBudget (Double.lit (1 / 10))) (by decide!)⟩

/-! ### The log file after several checkouts -/

theorem History.text_foldl (fmt : Fmt) (h : Heap) (orders : List OrderRecord) :
    ∀ init : String, orders.foldl (fun acc order => acc ++ History.line fmt h order) init
      = init ++ History.text fmt h orders := by
  unfold History.text
  induction orders using List.reverseRecOn with
  | nil => intro init; simp
  | append_singleton orders o ih =>
    intro init
    simp only [List.foldl_append, List.foldl_cons, List.foldl_nil]
    rw [ih init, ih "", String.append_assoc]

/-- A confirmed checkout whose log file opens appends to the log the lines of
all the orders of the history, the earlier ones included, not the new one only. -/
theorem checkoutBranch_log (fmt : Fmt) (confirm : Char) (now : Time) (w : World) (u : User)
    (hu : w.auth.user = some u) (hconfirm : confirm = 'y' ∨ confirm = 'Y')
    (hopen : w.fs.canOpen "order_history.txt" = true) :
    (checkoutBranch fmt confirm now w).2.fs.content "order_history.txt"
      = w.fs.content "order_history.txt" ++ History.text fmt w.heap
          (u.history.orders ++ [OrderRecord.new now w.cart.GetCart (w.cart.Total w.heap)]) := by
  have hsave : (History.SaveToFile (u.AddOrder now w.cart.GetCart (w.cart.Total w.heap)).history
      fmt w.heap "order_history.txt" w.fs).2.content "order_history.txt"
      = w.fs.content "order_history.txt" ++ History.text fmt w.heap
          (u.history.orders ++ [OrderRecord.new now w.cart.GetCart (w.cart.Total w.heap)]) := by
    unfold History.SaveToFile
    rw [if_neg (by simp [hopen])]
    rw [(FileSys.foldl_append fmt w.heap "order_history.txt" _ w.fs).2.2, History.text_foldl]
    rfl
  unfold checkoutBranch
  simp only [hconfirm, if_true]
  unfold AuthSystem.GetUser
  simp only [hu]
  unfold User.SaveHistoryToFile
  rcases hs : History.SaveToFile (u.AddOrder now w.cart.GetCart (w.cart.Total w.heap)).history
      fmt w.heap "order_history.txt" w.fs with ⟨r, fs'⟩
  rw [hs] at hsave
  cases r with
  | error what => exact hsave
  | ok v =>
    simp only
    split
    · exact hsave
    · exact hsave

/-- C15 on a session with two confirmed checkouts, starting from an empty log
and a newly registered user: the history holds two orders, but the log holds
three lines, the first order being written again by the second checkout. -/
theorem C15_two_checkouts_three_lines :
    (sampleFs.content "order_history.txt" = "") ∧
    ((runInputs clockFmt twoCheckouts (mainInit sampleFs)).auth.GetUser.map
        (fun u => u.history.orders.length)) = some 2 ∧
    (runInputs clockFmt twoCheckouts (mainInit sampleFs)).fs.content "order_history.txt"
      = "tick 5 | 30 AZN | Pizza Meal Pizza Meal \n"
        ++ "tick 5 | 30 AZN | Pizza Meal Pizza Meal \n"
        ++ "tick 9 | 5 AZN | Salad Meal \n" ∧
    ((runInputs clockFmt twoCheckouts (mainInit sampleFs)).fs.content
        "order_history.txt").toList.count '\n' = 3 := by
  decide!

/-! ### A session with a large budget: the checkout rounds -/

